import Mathlib

/- Verification of the `build_datasets` identifier-resolution pipeline of the
Medicaid provider-spending repository: a shallow embedding of the cache
stores, the rate gate, retry-round scheduling, HCPCS batching, the resolved
parquet exporters and the enrichment record selection, with theorems
settling the specification's claims against the embedded code. -/

namespace MedicaidSpending

/-- Embeds `truncate_for_log` (src/build_datasets/src/common.rs:128): trim,
then cap at 300 with an ellipsis. The Rust code caps at 300 bytes; the
embedding caps at 300 characters, which agrees on ASCII messages. -/
def truncate_for_log (text : String) : String :=
  let trimmed := text.trim
  if trimmed.length ≤ 300 then trimmed
  else String.mk (trimmed.toList.take 300) ++ "..."

/-- One invocation of the rate gate observes the clock twice
(`Instant::now()` in src/build_datasets/src/common.rs:143 and :147):
`now1` right after acquiring the lock, `now2` when storing the new slot. -/
structure GateObs where
  now1 : ℚ
  now2 : ℚ
deriving DecidableEq

/-- Outcome of one `wait_for_rate_slot` call: whether the lock was taken,
whether the caller slept, the completion instant, and the stored slot. -/
structure GateStep where
  tookLock : Bool
  slept : Bool
  completion : ℚ
  newSlot : ℚ
deriving DecidableEq

/-- Embeds `wait_for_rate_slot` (src/build_datasets/src/common.rs:138-148):
a zero interval returns before locking; otherwise the caller sleeps while
`now < *guard` and then stores `Instant::now() + min_interval`. -/
def wait_for_rate_slot (minInterval slot : ℚ) (o : GateObs) : GateStep :=
  if minInterval = 0 then
    { tookLock := false, slept := false, completion := o.now1, newSlot := slot }
  else
    { tookLock := true, slept := decide (o.now1 < slot), completion := o.now2,
      newSlot := o.now2 + minInterval }

/-- Physical-clock constraints on one gate call: the second reading is not
earlier than the first, and a sleep until `slot` ends no earlier than
`slot`. -/
def validObs (slot : ℚ) (o : GateObs) : Bool :=
  decide (o.now1 ≤ o.now2) && (!decide (o.now1 < slot) || decide (slot ≤ o.now2))

/-- A whole sequence of gate calls with physically consistent clock
readings, threading the stored slot through `wait_for_rate_slot`. -/
def validTrace (minInterval : ℚ) : ℚ → List GateObs → Bool
  | _, [] => true
  | slot, o :: rest =>
    validObs slot o &&
      validTrace minInterval (wait_for_rate_slot minInterval slot o).newSlot rest

/-- Completion instants of a sequence of gate calls starting from `slot`. -/
def runGate (minInterval : ℚ) : ℚ → List GateObs → List ℚ
  | _, [] => []
  | slot, o :: rest =>
    let s := wait_for_rate_slot minInterval slot o
    s.completion :: runGate minInterval s.newSlot rest

/-- Embeds the round-replay cool-down computation shared by
`resolve_missing_npis` (src/build_datasets/src/npi.rs:2781-2784) and
`resolve_missing_hcpcs` (src/build_datasets/src/hcpcs.rs:1330-1332):
`base_retry_delay.checked_mul(1u32 << retry_round.saturating_sub(1).min(20))`
with `Duration::from_secs(3600)` substituted only on `Duration` overflow
(the seconds product exceeding `u64`). -/
def retry_wait_seconds (baseSecs round : ℕ) : ℕ :=
  let factor := 2 ^ (min (round - 1) 20)
  if baseSecs * factor < 2 ^ 64 then baseSecs * factor else 3600

/-- The wait actually taken at the top of a retry round: skipped entirely
when `retry_round = 0` or the configured base delay is zero
(src/build_datasets/src/npi.rs:2781, src/build_datasets/src/hcpcs.rs:1329). -/
def round_retry_wait (baseSecs round : ℕ) : ℕ :=
  if round = 0 ∨ baseSecs = 0 then 0 else retry_wait_seconds baseSecs round

/-- Fuel-indexed chunking: `xs.chunks(size)` of Rust, with `fuel` bounding
the recursion depth (the caller passes the list length). -/
def chunksOfAux (size : ℕ) : ℕ → List String → List (List String)
  | 0, _ => []
  | _, [] => []
  | Nat.succ fuel, x :: rest =>
    (x :: rest).take size :: chunksOfAux size fuel ((x :: rest).drop size)

/-- Embeds `chunk_hcpcs_codes` (src/build_datasets/src/hcpcs.rs:1215-1221):
clamp the batch size from below to 1 and partition the codes into
consecutive chunks of that size. -/
def chunk_hcpcs_codes (codes : List String) (batchSize : ℕ) : List (List String) :=
  let size := max batchSize 1
  if codes.isEmpty then [] else chunksOfAux size codes.length codes

/-- Embeds the effective batch size taken by `resolve_missing_hcpcs`
(src/build_datasets/src/hcpcs.rs:1311): `args.hcpcs_batch_size.max(1)`.
No upper clamp is applied anywhere. -/
def effective_hcpcs_batch_size (configured : ℕ) : ℕ :=
  max configured 1

/-- ASCII case folding over the character list (`Char.toLower` only folds
`A`-`Z`), matching SQLite's NOCASE collation, SQLite's `LOWER`, and Rust's
`eq_ignore_ascii_case` / `to_ascii_lowercase`. -/
def asciiLower (s : String) : String :=
  String.mk (s.data.map Char.toLower)

/-- Case-insensitive string equality: `COLLATE NOCASE` of SQLite and
`eq_ignore_ascii_case` of Rust. -/
def nocaseEq (a b : String) : Bool :=
  decide (asciiLower a = asciiLower b)

/-- Whitespace trimming over the character list, embedding Rust's
`str::trim` as used on CSV fields. -/
def trimWs (s : String) : String :=
  String.mk
    (((s.data.dropWhile Char.isWhitespace).reverse.dropWhile
      Char.isWhitespace).reverse)

/-- ASCII upper-casing over the character list (`Char.toUpper` only folds
`a`-`z`), matching Rust's `to_ascii_uppercase`. -/
def asciiUpper (s : String) : String :=
  String.mk (s.data.map Char.toUpper)

/-- Embeds `normalize_hcpcs_code` (src/build_datasets/src/hcpcs.rs:432-443):
drop all whitespace, strip a trailing `.0`, upper-case, and accept exactly
five ASCII alphanumerics. -/
def normalize_hcpcs_code (raw : String) : Option String :=
  let compact := (trimWs raw).data.filter (fun c => !c.isWhitespace)
  if compact.isEmpty then none
  else
    let compact2 :=
      if compact.reverse.take 2 = ['0', '.'] then
        compact.take (compact.length - 2)
      else compact
    let normalized := asciiUpper (String.mk compact2)
    if normalized.data.length = 5 ∧ normalized.data.all Char.isAlphanum then
      some normalized
    else none

/-- A decoded upstream HCPCS record, `HcpcsApiRecord`
(src/build_datasets/src/hcpcs.rs:31-41). -/
structure HcpcsApiRecord where
  hcpcs_code : String
  short_desc : String
  long_desc : String
  add_dt : String
  act_eff_dt : String
  term_dt : String
  obsolete : Bool
  is_noc : Bool
deriving DecidableEq

/-- One row of the `hcpcs_cache` SQLite table
(src/build_datasets/src/hcpcs.rs:104-127). -/
structure HcpcsCacheRow where
  hcpcs_code : String
  short_desc : String
  long_desc : String
  add_dt : String
  act_eff_dt : String
  term_dt : String
  obsolete : String
  is_noc : String
  status : String
  error_message : String
  fetched_at_unix : Int
deriving DecidableEq

/-- Rust `if b { "true" } else { "false" }` used when inserting `ok`
records (src/build_datasets/src/hcpcs.rs:214-215). -/
def boolText (b : Bool) : String :=
  if b then "true" else "false"

/-- The cache row inserted for one decoded record by
`replace_with_ok_records` (src/build_datasets/src/hcpcs.rs:188-219). -/
def mkOkRow (rec : HcpcsApiRecord) (now : Int) : HcpcsCacheRow :=
  { hcpcs_code := rec.hcpcs_code, short_desc := rec.short_desc,
    long_desc := rec.long_desc, add_dt := rec.add_dt,
    act_eff_dt := rec.act_eff_dt, term_dt := rec.term_dt,
    obsolete := boolText rec.obsolete, is_noc := boolText rec.is_noc,
    status := "ok", error_message := "", fetched_at_unix := now }

/-- `DELETE FROM hcpcs_cache WHERE hcpcs_code = ?1 COLLATE NOCASE`, the
first statement of every HCPCS cache write
(src/build_datasets/src/hcpcs.rs:183, :226, :257). -/
def deleteCodeRows (t : List HcpcsCacheRow) (code : String) : List HcpcsCacheRow :=
  t.filter (fun r => !(nocaseEq r.hcpcs_code code))

/-- Embeds `HcpcsCache::replace_with_ok_records`
(src/build_datasets/src/hcpcs.rs:180-221): delete every row of the code,
then insert one `ok` row per record. -/
def replace_with_ok_records (t : List HcpcsCacheRow) (code : String)
    (records : List HcpcsApiRecord) (now : Int) : List HcpcsCacheRow :=
  deleteCodeRows t code ++ records.map (fun rec => mkOkRow rec now)

/-- The `not_found` sentinel row inserted by `set_not_found`
(src/build_datasets/src/hcpcs.rs:230-250). -/
def notFoundRow (code reason : String) (now : Int) : HcpcsCacheRow :=
  { hcpcs_code := code, short_desc := "", long_desc := "", add_dt := "",
    act_eff_dt := "", term_dt := "", obsolete := "", is_noc := "",
    status := "not_found", error_message := reason, fetched_at_unix := now }

/-- The `error` sentinel row inserted by `set_error`
(src/build_datasets/src/hcpcs.rs:261-281), with the truncated message. -/
def errorRow (code message : String) (now : Int) : HcpcsCacheRow :=
  { hcpcs_code := code, short_desc := "", long_desc := "", add_dt := "",
    act_eff_dt := "", term_dt := "", obsolete := "", is_noc := "",
    status := "error", error_message := truncate_for_log message,
    fetched_at_unix := now }

/-- Embeds `HcpcsCache::set_not_found`
(src/build_datasets/src/hcpcs.rs:223-252): delete, then insert one
`not_found` sentinel row. -/
def set_not_found (t : List HcpcsCacheRow) (code reason : String)
    (now : Int) : List HcpcsCacheRow :=
  deleteCodeRows t code ++ [notFoundRow code reason now]

/-- Embeds `HcpcsCache::set_error`
(src/build_datasets/src/hcpcs.rs:254-283): delete, then insert one `error`
sentinel row with the truncated message. -/
def set_error (t : List HcpcsCacheRow) (code message : String)
    (now : Int) : List HcpcsCacheRow :=
  deleteCodeRows t code ++ [errorRow code message now]

/-- One write operation against the HCPCS cache, with the wall clock it
observes. -/
inductive HcpcsCacheOp where
  | replaceOk (code : String) (records : List HcpcsApiRecord) (now : Int)
  | notFound (code reason : String) (now : Int)
  | errorOp (code message : String) (now : Int)
deriving DecidableEq

/-- Apply one HCPCS cache write. -/
def applyHcpcsOp (t : List HcpcsCacheRow) : HcpcsCacheOp → List HcpcsCacheRow
  | .replaceOk code records now => replace_with_ok_records t code records now
  | .notFound code reason now => set_not_found t code reason now
  | .errorOp code message now => set_error t code message now

/-- Apply a sequence of HCPCS cache writes to the empty table. -/
def applyHcpcsOps (ops : List HcpcsCacheOp) : List HcpcsCacheRow :=
  ops.foldl applyHcpcsOp []

/-- Well-formed write: the records handed to `replace_with_ok_records`
carry the operation's own code (guaranteed at every call site:
src/build_datasets/src/hcpcs.rs:1404 retains only case-insensitive
matches, and the fallback loaders insert the normalized code itself). -/
def hcpcsOpWF : HcpcsCacheOp → Bool
  | .replaceOk code records _ => records.all (fun rec => nocaseEq rec.hcpcs_code code)
  | .notFound _ _ _ => true
  | .errorOp _ _ _ => true

/-- The rows of the cache whose code equals `code` case-insensitively. -/
def codeRows (t : List HcpcsCacheRow) (code : String) : List HcpcsCacheRow :=
  t.filter (fun r => nocaseEq r.hcpcs_code code)

/-- A code's rows are status-coherent: all `ok`, or a single `not_found`
row, or a single `error` row (an untouched code has no rows and satisfies
the first disjunct vacuously). -/
def goodRows (rows : List HcpcsCacheRow) : Prop :=
  (∀ r ∈ rows, r.status = "ok")
  ∨ (∃ r, rows = [r] ∧ r.status = "not_found")
  ∨ (∃ r, rows = [r] ∧ r.status = "error")

/-- Whether a code counts as resolved for `HcpcsCache::classify_for_lookup`
(src/build_datasets/src/hcpcs.rs:140-142): some row matches the code
`COLLATE NOCASE` with status `ok` or `not_found`. -/
def hcpcsResolved (t : List HcpcsCacheRow) (code : String) : Bool :=
  t.any (fun r =>
    nocaseEq r.hcpcs_code code &&
      (decide (r.status = "ok") || decide (r.status = "not_found")))

/-- Embeds `HcpcsCache::classify_for_lookup`
(src/build_datasets/src/hcpcs.rs:136-162): count resolved codes and
collect the missing ones in order. -/
def hcpcs_classify_for_lookup (t : List HcpcsCacheRow) :
    List String → ℕ × List String
  | [] => (0, [])
  | code :: rest =>
    let acc := hcpcs_classify_for_lookup t rest
    if hcpcsResolved t code then (acc.1 + 1, acc.2) else (acc.1, code :: acc.2)

/-- One row of the `npi_cache` SQLite table
(src/build_datasets/src/npi.rs:56-62). -/
structure NpiCacheRow where
  npi : String
  provider_name : Option String
  status : String
  error_message : Option String
  fetched_at_unix : Int
deriving DecidableEq

/-- Embeds the lookup of `NpiCache::classify_for_lookup`
(src/build_datasets/src/npi.rs:92): `SELECT status FROM npi_cache WHERE
npi = ?1` compares with SQLite's default BINARY collation, i.e. exact
equality. -/
def npiStatusFor (t : List NpiCacheRow) (npi : String) : Option String :=
  (t.find? (fun r => decide (r.npi = npi))).map (fun r => r.status)

/-- Embeds `NpiCache::classify_for_lookup`
(src/build_datasets/src/npi.rs:89-111). -/
def npi_classify_for_lookup (t : List NpiCacheRow) :
    List String → ℕ × List String
  | [] => (0, [])
  | npi :: rest =>
    let acc := npi_classify_for_lookup t rest
    match npiStatusFor t npi with
    | some "ok" => (acc.1 + 1, acc.2)
    | some "not_found" => (acc.1 + 1, acc.2)
    | _ => (acc.1, npi :: acc.2)

/-- An incoming response-log row, `NpiApiReferenceRow`
(src/build_datasets/src/npi.rs:307-325). -/
structure NpiApiReferenceRow where
  npi : String
  basic_json : Option String
  addresses_json : Option String
  practice_locations_json : Option String
  taxonomies_json : Option String
  identifiers_json : Option String
  other_names_json : Option String
  endpoints_json : Option String
  request_url : String
  http_status : Option Int
  error_message : Option String
  api_run_id : String
  requested_at_utc : String
  request_params_json : String
  results_json : Option String
  response_json_raw : Option String
deriving DecidableEq

/-- One stored row of the `npi_api_responses` SQLite table
(src/build_datasets/src/npi.rs:64-80); every non-key column is nullable. -/
structure NpiApiResponsesRow where
  npi : String
  basic_json : Option String
  addresses_json : Option String
  practice_locations_json : Option String
  taxonomies_json : Option String
  identifiers_json : Option String
  other_names_json : Option String
  endpoints_json : Option String
  url : Option String
  error_message : Option String
  api_run_id : Option String
  requested_at_utc : Option String
  request_params_json : Option String
  results_json : Option String
  response_json_raw : Option String
deriving DecidableEq

/-- The stored image of an incoming row, per the column bindings of the
upsert statement (src/build_datasets/src/npi.rs:200-217). -/
def storeRow (r : NpiApiReferenceRow) : NpiApiResponsesRow :=
  { npi := r.npi, basic_json := r.basic_json,
    addresses_json := r.addresses_json,
    practice_locations_json := r.practice_locations_json,
    taxonomies_json := r.taxonomies_json,
    identifiers_json := r.identifiers_json,
    other_names_json := r.other_names_json,
    endpoints_json := r.endpoints_json, url := some r.request_url,
    error_message := r.error_message, api_run_id := some r.api_run_id,
    requested_at_utc := some r.requested_at_utc,
    request_params_json := some r.request_params_json,
    results_json := r.results_json,
    response_json_raw := r.response_json_raw }

/-- The conflict clause of the response-log upsert
(src/build_datasets/src/npi.rs:195-196): update when
`excluded.requested_at_utc > npi_api_responses.requested_at_utc` (SQLite
TEXT comparison, i.e. lexicographic by code point) or the stored value is
NULL. -/
def newerWins (stored : NpiApiResponsesRow) (incoming : NpiApiReferenceRow) : Bool :=
  match stored.requested_at_utc with
  | none => true
  | some t0 => decide (t0 < incoming.requested_at_utc)

/-- Primary-key lookup in `npi_api_responses`. -/
def lookupNpi (t : List NpiApiResponsesRow) (npi : String) :
    Option NpiApiResponsesRow :=
  t.find? (fun r => decide (r.npi = npi))

/-- One `INSERT ... ON CONFLICT(npi) DO UPDATE ... WHERE` execution of the
upsert statement (src/build_datasets/src/npi.rs:160-197). -/
def upsertOne (t : List NpiApiResponsesRow) (row : NpiApiReferenceRow) :
    List NpiApiResponsesRow :=
  match lookupNpi t row.npi with
  | none => t ++ [storeRow row]
  | some stored =>
    if newerWins stored row then
      t.map (fun r => if r.npi = row.npi then storeRow row else r)
    else t

/-- Embeds `NpiCache::upsert_api_responses`
(src/build_datasets/src/npi.rs:149-224): upsert each row in order. -/
def upsert_api_responses (t : List NpiApiResponsesRow)
    (rows : List NpiApiReferenceRow) : List NpiApiResponsesRow :=
  rows.foldl upsertOne t

/-- Which exporter phase emitted a resolved-artifact row: the bulk pass
over an NPPES file with the given label, the cached-API pass, or the
sentinel pass. -/
inductive NpiRowSource where
  | bulk (label : String)
  | api
  | sentinel
deriving DecidableEq

/-- One row of the NPI resolved-artifact parquet, restricted to the
columns the claims speak about (`npi`, `url`, `error_message`) plus the
emitting phase. -/
structure NpiExportRow where
  npi : String
  url : Option String
  error_message : Option String
  source : NpiRowSource
deriving DecidableEq

/-- An NPPES bulk primary file: its bundle label (`weekly` or `monthly`),
its file name and the NPI column of its data rows. -/
structure NppesBulkFile where
  label : String
  file_name : String
  npi_column : List String
deriving DecidableEq

/-- Embeds `NppesBulkFiles::url_sentinel`
(src/build_datasets/src/npi.rs:1131-1138). -/
def url_sentinel (f : NppesBulkFile) : String :=
  "nppes_bulk:" ++ f.label ++ ":" ++ f.file_name

/-- The exporter state threaded through the phases: the set of NPIs not
yet written (as a duplicate-free list) and the rows pushed so far
(src/build_datasets/src/npi.rs:2267-2276). -/
structure NpiExporterState where
  remaining : List String
  rows : List NpiExportRow
deriving DecidableEq

/-- The artifact row pushed for one bulk match
(src/build_datasets/src/npi.rs:2471-2487). -/
def bulkRow (f : NppesBulkFile) (npi : String) : NpiExportRow :=
  { npi := npi, url := some (url_sentinel f), error_message := none,
    source := .bulk f.label }

/-- The artifact row pushed for one cached API response
(src/build_datasets/src/npi.rs:2623-2639). -/
def apiRow (npi : String) (row : NpiApiResponsesRow) : NpiExportRow :=
  { npi := npi, url := row.url, error_message := row.error_message,
    source := .api }

/-- The sentinel artifact row
(src/build_datasets/src/npi.rs:2641-2657). -/
def sentinelRow (npi : String) : NpiExportRow :=
  { npi := npi, url := some "missing_cache",
    error_message := some "missing_cache", source := .sentinel }

/-- One primary-file row of the bulk pass
(src/build_datasets/src/npi.rs:2433-2493): trim the NPI column, skip the
row unless the value is a still-remaining NPI, otherwise push one bulk row
and remove the NPI from `remaining`. -/
def bulkStep (f : NppesBulkFile) (st : NpiExporterState) (raw : String) :
    NpiExporterState :=
  let npi := trimWs raw
  if npi = "" ∨ npi ∉ st.remaining then st
  else
    { remaining := st.remaining.filter (fun x => decide (x ≠ npi)),
      rows := st.rows ++ [bulkRow f npi] }

/-- Embeds `NpiResolvedParquetExporter::write_bulk_from_primary`
(src/build_datasets/src/npi.rs:2346-2524), scanning one primary file. -/
def write_bulk_from_primary (f : NppesBulkFile) (st : NpiExporterState) :
    NpiExporterState :=
  f.npi_column.foldl (bulkStep f) st

/-- One NPI of the cached-API / sentinel pass
(src/build_datasets/src/npi.rs:2595-2664): a still-remaining NPI gets its
cached response-log row when one exists, else the
`missing_cache` sentinel row. -/
def apiStep (apiTable : List NpiApiResponsesRow) (st : NpiExporterState)
    (npi : String) : NpiExporterState :=
  if npi ∉ st.remaining then st
  else
    match lookupNpi apiTable npi with
    | some row =>
      { remaining := st.remaining.filter (fun x => decide (x ≠ npi)),
        rows := st.rows ++ [apiRow npi row] }
    | none =>
      { remaining := st.remaining.filter (fun x => decide (x ≠ npi)),
        rows := st.rows ++ [sentinelRow npi] }

/-- Embeds `NpiResolvedParquetExporter::write_remaining_from_api_responses`
(src/build_datasets/src/npi.rs:2526-2667): walk the unique NPIs in input
order and settle every still-remaining one. -/
def write_remaining_from_api_responses (uniqueNpis : List String)
    (apiTable : List NpiApiResponsesRow) (st : NpiExporterState) :
    NpiExporterState :=
  uniqueNpis.foldl (apiStep apiTable) st

/-- The rows of the NPI resolved artifact after an uninterrupted run:
bulk passes in the given file order, then the cached-API / sentinel pass
(src/build_datasets/src/npi.rs:341-487). -/
def build_npi_resolved_rows (uniqueNpis : List String)
    (bulkFiles : List NppesBulkFile)
    (apiTable : List NpiApiResponsesRow) : List NpiExportRow :=
  let st0 : NpiExporterState := { remaining := uniqueNpis, rows := [] }
  let st1 := bulkFiles.foldl (fun st f => write_bulk_from_primary f st) st0
  (write_remaining_from_api_responses uniqueNpis apiTable st1).rows

/-- The bulk-file order fixed by `build_npi_mapping`
(src/build_datasets/src/npi.rs:404-417): the weekly file is processed
before the monthly file when both are present. -/
def build_npi_resolved_rows_weekly_monthly (uniqueNpis : List String)
    (weekly monthly : Option NppesBulkFile)
    (apiTable : List NpiApiResponsesRow) : List NpiExportRow :=
  build_npi_resolved_rows uniqueNpis (weekly.toList ++ monthly.toList) apiTable

/-- The `is_noc` sort bucket of the HCPCS mapping export
(src/build_datasets/src/hcpcs.rs:345): `CASE WHEN
LOWER(COALESCE(is_noc, 'false')) = 'false' THEN 0 ELSE 1 END` (the column
is NOT NULL, so the COALESCE is the identity). -/
def exportNocRank (r : HcpcsCacheRow) : ℕ :=
  if asciiLower r.is_noc = "false" then 0 else 1

/-- The full `ORDER BY` key of the HCPCS mapping export
(src/build_datasets/src/hcpcs.rs:343-349): code, then the NOC bucket, then
`act_eff_dt`, `add_dt`, `term_dt`, `short_desc`, all ascending TEXT. -/
def exportKey (r : HcpcsCacheRow) :
    String ×ₗ ℕ ×ₗ String ×ₗ String ×ₗ String ×ₗ String :=
  toLex (r.hcpcs_code, toLex (exportNocRank r, toLex (r.act_eff_dt,
    toLex (r.add_dt, toLex (r.term_dt, r.short_desc)))))

/-- The total order used to model the export's `ORDER BY`. -/
def exportLe (a b : HcpcsCacheRow) : Prop :=
  exportKey a ≤ exportKey b

instance : IsTotal HcpcsCacheRow exportLe :=
  ⟨fun a b => le_total (exportKey a) (exportKey b)⟩

instance : IsTrans HcpcsCacheRow exportLe :=
  ⟨fun _ _ _ hab hbc => le_trans hab hbc⟩

instance : DecidableRel exportLe :=
  fun a b => inferInstanceAs (Decidable (exportKey a ≤ exportKey b))

/-- Embeds the row selection of `HcpcsCache::export_mapping_csv`
(src/build_datasets/src/hcpcs.rs:326-352): the rows with
`status = 'ok'`, ordered by `exportKey` (the SQL sort is modelled by a
stable sort under the same key). -/
def export_mapping_rows (t : List HcpcsCacheRow) : List HcpcsCacheRow :=
  List.insertionSort exportLe (t.filter (fun r => decide (r.status = "ok")))

/-- One row of the `hcpcs_map` CTE of `enrich_dataset`
(src/build_datasets/src/enrich.rs:52-73), after its projections: dates are
parsed to `DATE` (encoded here as `Int` days relative to 1900-01-01),
`obsolete` / `is_noc` / `status` are lowered with defaults. -/
structure HcpcsMapRow where
  hcpcs_code : String
  short_desc : Option String
  long_desc : Option String
  add_date : Option Int
  act_eff_date : Option Int
  term_date : Option Int
  obsolete : String
  is_noc : String
  status : String
deriving DecidableEq

/-- The `DATE '1900-01-01'` sentinel of the enrichment query
(src/build_datasets/src/enrich.rs:101,107,108), in the days-since-1900
encoding. -/
def date1900 : Int := 0

/-- `COALESCE(hcpcs.act_eff_date, hcpcs.add_date, DATE '1900-01-01')`
(src/build_datasets/src/enrich.rs:101,107). -/
def coalesceEffDate (r : HcpcsMapRow) : Int :=
  match r.act_eff_date with
  | some d => d
  | none =>
    match r.add_date with
    | some d => d
    | none => date1900

/-- The first `CASE` of the enrichment ranking
(src/build_datasets/src/enrich.rs:98-105): 2 when no record joined, 0
when the claim month parsed and lies in
`[COALESCE(act_eff, add, 1900-01-01), term]` (term NULL = unbounded),
else 1. -/
def rankCase (claimMonth : Option Int) (rec : Option HcpcsMapRow) : ℕ :=
  match rec with
  | none => 2
  | some r =>
    match claimMonth with
    | none => 1
    | some d =>
      if decide (coalesceEffDate r ≤ d) &&
          (match r.term_date with
           | none => true
           | some t => decide (d ≤ t)) then 0 else 1

/-- `CASE WHEN hcpcs.is_noc = 'false' THEN 0 ELSE 1 END`
(src/build_datasets/src/enrich.rs:106); a NULL (unjoined) record compares
as 1. -/
def nocSortCase (rec : Option HcpcsMapRow) : ℕ :=
  match rec with
  | some r => if r.is_noc = "false" then 0 else 1
  | none => 1

/-- The `COALESCE(act_eff, add, 1900-01-01) DESC` sort component
(src/build_datasets/src/enrich.rs:107), negated to sort ascending. -/
def effDesc (rec : Option HcpcsMapRow) : Int :=
  match rec with
  | some r => -(coalesceEffDate r)
  | none => -date1900

/-- The `COALESCE(add, 1900-01-01) DESC` component
(src/build_datasets/src/enrich.rs:108), negated. -/
def addDesc (rec : Option HcpcsMapRow) : Int :=
  match rec with
  | some r => -(r.add_date.getD date1900)
  | none => -date1900

/-- The `LENGTH(COALESCE(long_desc, '')) DESC` component
(src/build_datasets/src/enrich.rs:109), negated. -/
def lenDesc (rec : Option HcpcsMapRow) : Int :=
  match rec with
  | some r => -(((r.long_desc.getD "").length : Int))
  | none => 0

/-- The full lexicographic `ORDER BY` key of the enrichment window
(src/build_datasets/src/enrich.rs:95-110). `ROW_NUMBER() = 1` picks a
minimum of this key. -/
def enrichSortKey (claimMonth : Option Int) (rec : Option HcpcsMapRow) :
    ℕ ×ₗ ℕ ×ₗ Int ×ₗ Int ×ₗ Int :=
  toLex (rankCase claimMonth rec, toLex (nocSortCase rec,
    toLex (effDesc rec, toLex (addDesc rec, lenDesc rec))))

/-- First minimum of a list under a key (deterministic refinement of the
arbitrary tie order of `ROW_NUMBER`). -/
def minBy {α K : Type} [LinearOrder K] (key : α → K) : List α → Option α
  | [] => none
  | x :: xs =>
    some (xs.foldl (fun best y => if key y < key best then y else best) x)

/-- The LEFT JOIN candidates for one spending row
(src/build_datasets/src/enrich.rs:116-118): the `status = 'ok'` mapping
rows whose code equals the spending row's code exactly; when none join,
the single NULL record. -/
def hcpcsCandidates (hmap : List HcpcsMapRow) (srcCode : String) :
    List (Option HcpcsMapRow) :=
  let matched := hmap.filter
    (fun r => decide (r.hcpcs_code = srcCode) && decide (r.status = "ok"))
  if matched.isEmpty then [none] else matched.map some

/-- The HCPCS record `enrich_dataset` attaches to a spending row with the
given code and claim month (`WHERE _hcpcs_rank = 1`,
src/build_datasets/src/enrich.rs:120-122). -/
def attach_hcpcs_record (hmap : List HcpcsMapRow) (srcCode : String)
    (claimMonth : Option Int) : Option HcpcsMapRow :=
  match minBy (enrichSortKey claimMonth) (hcpcsCandidates hmap srcCode) with
  | some sel => sel
  | none => none

/-- Modelled from the claim's wording, for comparison only: the rank the
specification describes, whose coverage interval is unbounded in the past
when both `act_eff_date` and `add_date` are NULL (the code instead uses
the `DATE '1900-01-01'` sentinel). -/
def specRankCase (claimMonth : Option Int) (rec : Option HcpcsMapRow) : ℕ :=
  match rec with
  | none => 2
  | some r =>
    match claimMonth with
    | none => 1
    | some d =>
      if (match r.act_eff_date with
          | some a => decide (a ≤ d)
          | none =>
            match r.add_date with
            | some b => decide (b ≤ d)
            | none => true) &&
          (match r.term_date with
           | none => true
           | some t => decide (d ≤ t)) then 0 else 1

/-- Modelled from the claim's wording: the specification's full ordering
key, identical to `enrichSortKey` except for the rank component. -/
def specSortKey (claimMonth : Option Int) (rec : Option HcpcsMapRow) :
    ℕ ×ₗ ℕ ×ₗ Int ×ₗ Int ×ₗ Int :=
  toLex (specRankCase claimMonth rec, toLex (nocSortCase rec,
    toLex (effDesc rec, toLex (addDesc rec, lenDesc rec))))

/-- A concrete decoded record for the `99213` office-visit code. -/
def exRecord99213 : HcpcsApiRecord :=
  { hcpcs_code := "99213", short_desc := "Office visit est",
    long_desc := "Office or other outpatient visit", add_dt := "19900101",
    act_eff_dt := "20100101", term_dt := "", obsolete := false,
    is_noc := false }

/-- A concrete sequence of HCPCS cache writes exercising all three
operations across two codes. -/
def exHcpcsOps : List HcpcsCacheOp :=
  [.notFound "a0425" "not_found" 100,
   .replaceOk "99213" [exRecord99213] 101,
   .errorOp "A0425" "HCPCS API request failed" 102,
   .replaceOk "A0425" [{ exRecord99213 with hcpcs_code := "A0425" }] 103]

/-- The record the fallback call sites hand to `replace_with_ok_records`
for target code `"99213.0"`: its code is `normalize_hcpcs_code("99213.0")`
(src/build_datasets/src/hcpcs.rs:547-556, :589-597), which strips the
trailing `.0` — so it differs from the target code by more than case. -/
def c2FallbackRecord : HcpcsApiRecord :=
  { exRecord99213 with hcpcs_code := (normalize_hcpcs_code "99213.0").getD "" }

/-- A reachable write sequence: an API `not_found` for target `"99213"`,
then a local-fallback seed for target `"99213.0"`
(src/build_datasets/src/hcpcs.rs:597). -/
def c2MixedOps : List HcpcsCacheOp :=
  [.notFound "99213" "not_found" 100,
   .replaceOk "99213.0" [c2FallbackRecord] 101]

/-- An NPI cache containing a key with ASCII letters, stored with status
`ok`. -/
def exNpiCache : List NpiCacheRow :=
  [{ npi := "1a2b3c4d5e", provider_name := some "ACME CLINIC",
     status := "ok", error_message := none, fetched_at_unix := 100 }]

/-- An HCPCS cache with one resolved code, stored lower-case. -/
def exHcpcsCache : List HcpcsCacheRow :=
  [{ hcpcs_code := "j9999", short_desc := "Drug", long_desc := "Drug noc",
     add_dt := "", act_eff_dt := "", term_dt := "", obsolete := "false",
     is_noc := "true", status := "ok", error_message := "",
     fetched_at_unix := 100 }]

/-- A concrete incoming response-log row with timestamp `t`. -/
def exIncoming (t : String) : NpiApiReferenceRow :=
  { npi := "1234567893", basic_json := some "1", addresses_json := none,
    practice_locations_json := none, taxonomies_json := none,
    identifiers_json := none, other_names_json := none,
    endpoints_json := none, request_url := "https://api/1234567893",
    http_status := some 200, error_message := none,
    api_run_id := "api-run-1", requested_at_utc := t,
    request_params_json := "params", results_json := none,
    response_json_raw := none }

/-- A concrete stored response-log table with one older row for the same
NPI and one row for a different NPI. -/
def exResponses : List NpiApiResponsesRow :=
  [storeRow (exIncoming "100"),
   storeRow { exIncoming "150" with npi := "1999999984" }]

/-- A weekly NPPES bulk file whose only data row carries the shared NPI. -/
def exWeekly : NppesBulkFile :=
  { label := "weekly", file_name := "npidata_pfile_w.csv",
    npi_column := ["1234567893"] }

/-- A monthly NPPES bulk file carrying the same NPI. -/
def exMonthly : NppesBulkFile :=
  { label := "monthly", file_name := "npidata_pfile_m.csv",
    npi_column := ["1234567893"] }

/-- The unique-NPI input used by the exporter examples. -/
def exUniqueNpis : List String :=
  ["1234567893", "1999999984", "1111111111"]

/-- An `ok` mapping row whose validity dates are all NULL: under the code
its coverage interval starts at the 1900-01-01 sentinel, under the claim's
wording it is unbounded in the past. -/
def exMapRowNullDates : HcpcsMapRow :=
  { hcpcs_code := "X1234", short_desc := some "a", long_desc := some "aa",
    add_date := none, act_eff_date := none, term_date := none,
    obsolete := "false", is_noc := "false", status := "ok" }

/-- An `ok` NOC mapping row effective from 1899-01-01 (365 days before the
1900-01-01 sentinel in the days encoding). -/
def exMapRowNoc1899 : HcpcsMapRow :=
  { hcpcs_code := "X1234", short_desc := some "b", long_desc := some "b",
    add_date := none, act_eff_date := some (-365), term_date := none,
    obsolete := "false", is_noc := "true", status := "ok" }

/-- An `ok` mapping row covering modern claim months. -/
def exMapRowModern : HcpcsMapRow :=
  { hcpcs_code := "99213", short_desc := some "Office visit est",
    long_desc := some "Office or other outpatient visit",
    add_date := some 32874, act_eff_date := some 40179, term_date := none,
    obsolete := "false", is_noc := "false", status := "ok" }

/-- Exporter invariant: the emitted row keys together with the remaining
set are a permutation of the unique input NPIs (each NPI is either
already written or still pending, never both, never neither). -/
def exporterInv (uniqueNpis : List String) (st : NpiExporterState) : Prop :=
  (st.rows.map NpiExportRow.npi ++ st.remaining).Perm uniqueNpis

/-- Per-row guarantees of the resolved artifact: a sentinel row carries
the `missing_cache` url and error message and has no cached response; an
api row has a row in `npi_api_responses`; a bulk row's NPI appears in the
bulk file of its label. -/
def exportRowWF (bulkFiles : List NppesBulkFile)
    (apiTable : List NpiApiResponsesRow) (r : NpiExportRow) : Prop :=
  (r.source = .sentinel → r.url = some "missing_cache"
    ∧ r.error_message = some "missing_cache"
    ∧ lookupNpi apiTable r.npi = none)
  ∧ (r.source = .api → ∃ row ∈ apiTable, row.npi = r.npi)
  ∧ (∀ label, r.source = .bulk label →
      ∃ f ∈ bulkFiles, f.label = label ∧ r.npi ∈ f.npi_column.map trimWs)

theorem validObs_le {slot : ℚ} {o : GateObs} (h : validObs slot o = true) :
    slot ≤ o.now2 := by
  have h' := h
  simp only [validObs, Bool.and_eq_true, Bool.or_eq_true, Bool.not_eq_true',
    decide_eq_true_eq, decide_eq_false_iff_not] at h'
  rcases h' with ⟨h12, hcase⟩
  rcases hcase with hnotlt | hle
  · exact le_trans (not_lt.mp hnotlt) h12
  · exact hle

theorem validTrace_cons {m slot : ℚ} {o : GateObs} {rest : List GateObs}
    (h : validTrace m slot (o :: rest) = true) :
    validObs slot o = true ∧
      validTrace m (wait_for_rate_slot m slot o).newSlot rest = true := by
  simpa [validTrace, Bool.and_eq_true] using h

theorem runGate_head_le (m : ℚ) (hm : m ≠ 0) :
    ∀ (slot : ℚ) (obs : List GateObs), validTrace m slot obs = true →
      ∀ c ∈ (runGate m slot obs).head?, slot ≤ c := by
  intro slot obs hv c hc
  cases obs with
  | nil => simp [runGate] at hc
  | cons o rest =>
    rcases validTrace_cons hv with ⟨hobs, _⟩
    have hcomp : (wait_for_rate_slot m slot o).completion = o.now2 := by
      simp [wait_for_rate_slot, hm]
    simp only [runGate, List.head?_cons, Option.mem_def, Option.some.injEq] at hc
    subst hc
    rw [hcomp]
    exact validObs_le hobs

theorem runGate_chain (m : ℚ) (hm : 0 < m) :
    ∀ (obs : List GateObs) (slot : ℚ), validTrace m slot obs = true →
      List.Chain' (fun a b : ℚ => a + m ≤ b) (runGate m slot obs) := by
  intro obs
  induction obs with
  | nil => intro slot _; simp [runGate]
  | cons o rest ih =>
    intro slot hv
    rcases validTrace_cons hv with ⟨hobs, hrest⟩
    have hm' : m ≠ 0 := ne_of_gt hm
    have hslot : (wait_for_rate_slot m slot o).newSlot = o.now2 + m := by
      simp [wait_for_rate_slot, hm']
    have hcomp : (wait_for_rate_slot m slot o).completion = o.now2 := by
      simp [wait_for_rate_slot, hm']
    simp only [runGate]
    rw [List.chain'_cons']
    constructor
    · intro b hb
      have := runGate_head_le m hm' _ rest hrest b hb
      rw [hslot] at this
      rw [hcomp]
      exact this
    · exact ih _ hrest

/-- C3: with `requests_per_second = R > 0` (so `min_interval = 1/R`), any
physically consistent sequence of `wait_for_rate_slot` calls has
consecutive completion instants at least `1/R` apart; with
`requests_per_second = 0` the gate returns at once without taking the lock
or sleeping and leaves the slot unchanged. -/
theorem rate_gate_spacing (R slot : ℚ) (obs : List GateObs)
    (hR : 0 < R) (hv : validTrace (1 / R) slot obs = true) :
    List.Chain' (fun a b : ℚ => a + 1 / R ≤ b) (runGate (1 / R) slot obs)
    ∧ ∀ (s : ℚ) (o : GateObs),
        (wait_for_rate_slot 0 s o).tookLock = false
        ∧ (wait_for_rate_slot 0 s o).slept = false
        ∧ (wait_for_rate_slot 0 s o).newSlot = s := by
  constructor
  · exact runGate_chain (1 / R) (by positivity) obs slot hv
  · intro s o
    refine ⟨?_, ?_, ?_⟩ <;> simp [wait_for_rate_slot]

/-- C3 witness: a concrete two-call trace at one request per second. -/
theorem rate_gate_spacing_witness :
    (0 : ℚ) < 1
    ∧ validTrace (1 / 1) 0 [⟨0, 0⟩, ⟨0, 1⟩] = true
    ∧ (List.Chain' (fun a b : ℚ => a + 1 / 1 ≤ b)
        (runGate (1 / 1) 0 [⟨0, 0⟩, ⟨0, 1⟩])
      ∧ ∀ (s : ℚ) (o : GateObs),
          (wait_for_rate_slot 0 s o).tookLock = false
          ∧ (wait_for_rate_slot 0 s o).slept = false
          ∧ (wait_for_rate_slot 0 s o).newSlot = s) :=
  ⟨by norm_num,
   by norm_num [validTrace, validObs, wait_for_rate_slot],
   rate_gate_spacing 1 0 [⟨0, 0⟩, ⟨0, 1⟩] (by norm_num)
     (by norm_num [validTrace, validObs, wait_for_rate_slot])⟩

/-- C4 counterexample: with the default `failure_retry_delay_seconds = 30`
and retry round 9, the code waits `30 * 2 ^ 8 = 7680` seconds, while the
claim's formula clamped at 3600 gives 3600. -/
theorem retry_wait_counterexample :
    retry_wait_seconds 30 9 = 7680
    ∧ min (30 * 2 ^ (9 - 1)) 3600 = 3600
    ∧ (7680 : ℕ) ≠ 3600 := by
  refine ⟨?_, by decide, by decide⟩
  decide

/-- C4 amended: for every retry round `k ≥ 1`, the wait before replaying
round `k`'s failed jobs equals
`failure_retry_delay_seconds * 2 ^ (min (k - 1) 20)` seconds whenever
that product fits in `u64` seconds — the exponent saturates at 20 and
there is no 3600-second cap — and equals 3600 seconds exactly when the
product overflows `Duration`. -/
theorem round_retry_wait_eq (base k : ℕ) (hk : 1 ≤ k) :
    (base * 2 ^ (min (k - 1) 20) < 2 ^ 64 →
      round_retry_wait base k = base * 2 ^ (min (k - 1) 20))
    ∧ (2 ^ 64 ≤ base * 2 ^ (min (k - 1) 20) →
      round_retry_wait base k = 3600) := by
  by_cases hbase : base = 0
  · subst hbase
    constructor
    · intro _
      simp [round_retry_wait]
    · intro hov
      rw [zero_mul] at hov
      have h1 : 0 < 2 ^ 64 := pow_pos (by norm_num : (0 : ℕ) < 2) 64
      omega
  · have hguard : round_retry_wait base k = retry_wait_seconds base k := by
      simp only [round_retry_wait]
      rw [if_neg (by push_neg; exact ⟨by omega, hbase⟩)]
    constructor
    · intro hov
      rw [hguard]
      simp only [retry_wait_seconds]
      rw [if_pos hov]
    · intro hov
      rw [hguard]
      simp only [retry_wait_seconds]
      rw [if_neg (not_lt.mpr hov)]

/-- C4 witness: round 25 (the exponent saturates, `min (25-1) 20 = 20`)
with the default 30-second base delay. -/
theorem round_retry_wait_eq_witness :
    (1 ≤ 25)
    ∧ ((30 * 2 ^ (min (25 - 1) 20) < 2 ^ 64 →
        round_retry_wait 30 25 = 30 * 2 ^ (min (25 - 1) 20))
      ∧ (2 ^ 64 ≤ 30 * 2 ^ (min (25 - 1) 20) →
        round_retry_wait 30 25 = 3600)) :=
  ⟨by decide, round_retry_wait_eq 30 25 (by decide)⟩

theorem chunksOfAux_length_le (size : ℕ) :
    ∀ (fuel : ℕ) (xs : List String), ∀ chunk ∈ chunksOfAux size fuel xs,
      chunk.length ≤ size := by
  intro fuel
  induction fuel with
  | zero => intro xs chunk hc; simp [chunksOfAux] at hc
  | succ fuel ih =>
    intro xs chunk hc
    cases xs with
    | nil => simp [chunksOfAux] at hc
    | cons x rest =>
      simp only [chunksOfAux, List.mem_cons] at hc
      rcases hc with hc | hc
      · subst hc
        exact List.length_take_le size (x :: rest)
      · exact ih _ chunk hc

/-- C5 amended: the HCPCS resolver clamps the configured batch size from
below to 1 only; every chunk handed to the batched-OR query has at most
`max(hcpcs_batch_size, 1)` codes, so a configuration above 500 produces
chunks larger than 500 (no upstream-ceiling clamp exists). -/
theorem chunk_hcpcs_codes_le (configured : ℕ) (codes : List String) :
    ∀ chunk ∈ chunk_hcpcs_codes codes (effective_hcpcs_batch_size configured),
      chunk.length ≤ effective_hcpcs_batch_size configured := by
  intro chunk hc
  have heff : max (effective_hcpcs_batch_size configured) 1
      = effective_hcpcs_batch_size configured := by
    simp [effective_hcpcs_batch_size, Nat.max_assoc]
  simp only [chunk_hcpcs_codes] at hc
  by_cases hempty : codes.isEmpty
  · rw [if_pos hempty] at hc
    simp at hc
  · rw [if_neg hempty] at hc
    rw [heff] at hc
    exact chunksOfAux_length_le _ _ _ chunk hc

set_option maxRecDepth 8000 in
/-- C5 counterexample: a configured `hcpcs_batch_size` of 501 yields a
single 501-code chunk, exceeding the claimed 500-code ceiling. -/
theorem chunk_hcpcs_codes_counterexample :
    (chunk_hcpcs_codes (List.replicate 501 "A0425")
        (effective_hcpcs_batch_size 501)).map List.length = [501]
    ∧ (500 : ℕ) < 501 := by
  constructor
  · decide
  · decide

theorem nocaseEq_iff {a b : String} :
    nocaseEq a b = true ↔ asciiLower a = asciiLower b := by
  simp [nocaseEq]

theorem codeRows_append (t u : List HcpcsCacheRow) (q : String) :
    codeRows (t ++ u) q = codeRows t q ++ codeRows u q := by
  simp [codeRows, List.filter_append]

theorem codeRows_deleteCodeRows (t : List HcpcsCacheRow) (c q : String) :
    codeRows (deleteCodeRows t c) q =
      if asciiLower q = asciiLower c then [] else codeRows t q := by
  unfold codeRows deleteCodeRows
  rw [List.filter_filter]
  by_cases h : asciiLower q = asciiLower c
  · rw [if_pos h]
    have hfalse : ∀ r ∈ t,
        (nocaseEq r.hcpcs_code q && !(nocaseEq r.hcpcs_code c)) = false := by
      intro r _
      by_cases hq : asciiLower r.hcpcs_code = asciiLower q
      · have h1 : nocaseEq r.hcpcs_code q = true := by simp [nocaseEq, hq]
        have h2 : nocaseEq r.hcpcs_code c = true := by
          simp [nocaseEq, hq.trans h]
        rw [h1, h2]; rfl
      · have h1 : nocaseEq r.hcpcs_code q = false := by simp [nocaseEq, hq]
        rw [h1]; rfl
    rw [List.filter_congr hfalse, List.filter_false]
  · rw [if_neg h]
    apply List.filter_congr
    intro r _
    by_cases hq : asciiLower r.hcpcs_code = asciiLower q
    · have h1 : nocaseEq r.hcpcs_code q = true := by simp [nocaseEq, hq]
      have h2 : nocaseEq r.hcpcs_code c = false := by
        have hnc : ¬ asciiLower r.hcpcs_code = asciiLower c :=
          fun hc => h (hq.symm.trans hc)
        simp [nocaseEq, hnc]
      rw [h1, h2]; rfl
    · have h1 : nocaseEq r.hcpcs_code q = false := by simp [nocaseEq, hq]
      rw [h1]; rfl

theorem goodRows_nil : goodRows [] :=
  Or.inl (by intro r hr; simp at hr)

theorem goodRows_applyHcpcsOp (t : List HcpcsCacheRow) (op : HcpcsCacheOp)
    (hwf : hcpcsOpWF op = true)
    (ht : ∀ q, goodRows (codeRows t q)) :
    ∀ q, goodRows (codeRows (applyHcpcsOp t op) q) := by
  intro q
  cases op with
  | replaceOk code records now =>
    simp only [applyHcpcsOp, replace_with_ok_records]
    rw [codeRows_append, codeRows_deleteCodeRows]
    by_cases h : asciiLower q = asciiLower code
    · rw [if_pos h]
      left
      intro r hr
      simp only [List.nil_append, codeRows, List.mem_filter, List.mem_map] at hr
      rcases hr with ⟨⟨rec, _, hrec⟩, _⟩
      rw [← hrec]
      rfl
    · rw [if_neg h]
      have hnew : codeRows (records.map (fun rec => mkOkRow rec now)) q = [] := by
        apply List.eq_nil_of_subset_nil
        intro r hr
        simp only [codeRows, List.mem_filter, List.mem_map] at hr
        rcases hr with ⟨⟨rec, hrecmem, hrec⟩, hq⟩
        exfalso
        have hcode : nocaseEq rec.hcpcs_code code = true := by
          simp only [hcpcsOpWF, List.all_eq_true] at hwf
          exact hwf rec hrecmem
        have h1 : asciiLower rec.hcpcs_code = asciiLower code :=
          nocaseEq_iff.mp hcode
        have h2 : asciiLower (mkOkRow rec now).hcpcs_code = asciiLower q := by
          rw [← hrec] at hq
          exact nocaseEq_iff.mp hq
        have h3 : asciiLower rec.hcpcs_code = asciiLower q := h2
        exact h (h3.symm.trans h1)
      rw [hnew, List.append_nil]
      exact ht q
  | notFound code reason now =>
    simp only [applyHcpcsOp, set_not_found]
    rw [codeRows_append, codeRows_deleteCodeRows]
    by_cases h : asciiLower q = asciiLower code
    · rw [if_pos h]
      have hone : nocaseEq (notFoundRow code reason now).hcpcs_code q = true := by
        simp only [notFoundRow]
        exact nocaseEq_iff.mpr h.symm
      right; left
      refine ⟨notFoundRow code reason now, ?_, rfl⟩
      simp [codeRows, hone]
    · rw [if_neg h]
      have hone : nocaseEq (notFoundRow code reason now).hcpcs_code q = false := by
        simp only [notFoundRow, nocaseEq, decide_eq_false_iff_not]
        exact fun hc => h hc.symm
      have hz : codeRows [notFoundRow code reason now] q = [] := by
        simp [codeRows, hone]
      rw [hz, List.append_nil]
      exact ht q
  | errorOp code message now =>
    simp only [applyHcpcsOp, set_error]
    rw [codeRows_append, codeRows_deleteCodeRows]
    by_cases h : asciiLower q = asciiLower code
    · rw [if_pos h]
      have hone : nocaseEq (errorRow code message now).hcpcs_code q = true := by
        simp only [errorRow]
        exact nocaseEq_iff.mpr h.symm
      right; right
      refine ⟨errorRow code message now, ?_, rfl⟩
      simp [codeRows, hone]
    · rw [if_neg h]
      have hone : nocaseEq (errorRow code message now).hcpcs_code q = false := by
        simp only [errorRow, nocaseEq, decide_eq_false_iff_not]
        exact fun hc => h hc.symm
      have hz : codeRows [errorRow code message now] q = [] := by
        simp [codeRows, hone]
      rw [hz, List.append_nil]
      exact ht q

theorem goodRows_foldl (ops : List HcpcsCacheOp) :
    ∀ t : List HcpcsCacheRow, (∀ q, goodRows (codeRows t q)) →
      (∀ op ∈ ops, hcpcsOpWF op = true) →
      ∀ q, goodRows (codeRows (ops.foldl applyHcpcsOp t) q) := by
  induction ops with
  | nil => intro t ht _ q; simpa using ht q
  | cons op rest ih =>
    intro t ht hwf q
    simp only [List.foldl_cons]
    refine ih (applyHcpcsOp t op) ?_ ?_ q
    · exact goodRows_applyHcpcsOp t op (hwf op (by simp)) ht
    · intro o ho; exact hwf o (by simp [ho])

/-- C2 counterexample: the fallback call sites insert rows coded
`normalize_hcpcs_code(code)` while the preceding DELETE only matches the
raw target code `COLLATE NOCASE`; normalization strips more than case
(a trailing `.0`, inner whitespace), so after an API `not_found` for
target `"99213"` and a fallback seed for target `"99213.0"` the code
`"99213"` holds a `not_found` row and an `ok` row at quiescence — mixed
status, refuting the claim's unconditional invariant. -/
theorem hcpcs_mixed_status_counterexample :
    normalize_hcpcs_code "99213.0" = some "99213"
    ∧ (codeRows (applyHcpcsOps c2MixedOps) "99213").map HcpcsCacheRow.status
        = ["not_found", "ok"]
    ∧ ¬ goodRows (codeRows (applyHcpcsOps c2MixedOps) "99213") := by
  refine ⟨by decide, by decide, ?_⟩
  have hrows : codeRows (applyHcpcsOps c2MixedOps) "99213"
      = [notFoundRow "99213" "not_found" 100, mkOkRow c2FallbackRecord 101] := by
    decide
  intro h
  rcases h with h | ⟨r, hr, _⟩ | ⟨r, hr, _⟩
  · have hmem : notFoundRow "99213" "not_found" 100
        ∈ codeRows (applyHcpcsOps c2MixedOps) "99213" := by
      rw [hrows]
      exact List.mem_cons_self _ _
    exact absurd (h _ hmem) (by decide)
  · rw [hrows] at hr
    have hlen := congrArg List.length hr
    simp at hlen
  · rw [hrows] at hr
    have hlen := congrArg List.length hr
    simp at hlen

/-- C2 amended: every HCPCS cache write deletes the rows matching its
code case-insensitively before inserting, and for every write sequence
from the empty table in which each `replace_with_ok_records` inserts
records carrying its own code up to ASCII case (true of all API-path
writes, which retain only case-insensitive matches), no code ever holds
rows of mixed status: its rows are all `ok`, or a single `not_found` row,
or a single `error` row. The fallback paths can violate this premise by
inserting under the normalized code (see the counterexample). -/
theorem hcpcs_cache_status_coherent (ops : List HcpcsCacheOp)
    (hwf : ∀ op ∈ ops, hcpcsOpWF op = true) (code : String) :
    goodRows (codeRows (applyHcpcsOps ops) code) := by
  unfold applyHcpcsOps
  refine goodRows_foldl ops [] ?_ hwf code
  intro q
  simpa [codeRows] using goodRows_nil

/-- C2 witness: a concrete four-write sequence touching two codes. -/
theorem hcpcs_cache_status_coherent_witness :
    (∀ op ∈ exHcpcsOps, hcpcsOpWF op = true)
    ∧ goodRows (codeRows (applyHcpcsOps exHcpcsOps) "A0425") :=
  ⟨by decide, hcpcs_cache_status_coherent exHcpcsOps (by decide) "A0425"⟩

/-- C8 counterexample: the NPI cache lookup compares keys with SQLite's
default BINARY collation, so re-casing a stored key flips its
classification — `classify_for_lookup` is not case-invariant on the NPI
store. -/
theorem classify_case_counterexample :
    npi_classify_for_lookup exNpiCache ["1a2b3c4d5e"] = (1, [])
    ∧ npi_classify_for_lookup exNpiCache ["1A2B3C4D5E"]
        = (0, ["1A2B3C4D5E"])
    ∧ asciiLower "1a2b3c4d5e" = asciiLower "1A2B3C4D5E"
    ∧ ((1 : ℕ), ([] : List String)) ≠ (0, ["1A2B3C4D5E"]) := by
  refine ⟨by decide, by decide, by decide, by decide⟩

theorem hcpcsResolved_congr (t : List HcpcsCacheRow) {a b : String}
    (h : asciiLower a = asciiLower b) :
    hcpcsResolved t a = hcpcsResolved t b := by
  simp only [hcpcsResolved, nocaseEq, h]

/-- C8 amended: the HCPCS store's `classify_for_lookup` (which compares
`COLLATE NOCASE`) is invariant under letter-case of its keys: re-casing
the key list preserves the resolved count and yields a missing list equal
up to case. The NPI store's lookup is case-sensitive, so the claimed
invariance holds there only for keys without letters (all real NPIs). -/
theorem hcpcs_classify_case_invariant (t : List HcpcsCacheRow)
    (codes codes' : List String)
    (h : List.Forall₂ (fun a b => asciiLower a = asciiLower b) codes codes') :
    (hcpcs_classify_for_lookup t codes).1
      = (hcpcs_classify_for_lookup t codes').1
    ∧ List.Forall₂ (fun a b => asciiLower a = asciiLower b)
        (hcpcs_classify_for_lookup t codes).2
        (hcpcs_classify_for_lookup t codes').2 := by
  induction h with
  | nil => exact ⟨rfl, List.Forall₂.nil⟩
  | @cons a b as bs hab _ ih =>
    have hres : hcpcsResolved t a = hcpcsResolved t b :=
      hcpcsResolved_congr t hab
    simp only [hcpcs_classify_for_lookup]
    by_cases hr : hcpcsResolved t a = true
    · rw [if_pos hr, if_pos (hres ▸ hr)]
      exact ⟨by simp [ih.1], ih.2⟩
    · rw [if_neg hr, if_neg (hres ▸ hr)]
      exact ⟨ih.1, List.Forall₂.cons hab ih.2⟩

/-- C8 witness: one stored lower-case code looked up in both cases. -/
theorem hcpcs_classify_case_invariant_witness :
    List.Forall₂ (fun a b => asciiLower a = asciiLower b) ["J9999"] ["j9999"]
    ∧ (hcpcs_classify_for_lookup exHcpcsCache ["J9999"]).1
        = (hcpcs_classify_for_lookup exHcpcsCache ["j9999"]).1
    ∧ List.Forall₂ (fun a b => asciiLower a = asciiLower b)
        (hcpcs_classify_for_lookup exHcpcsCache ["J9999"]).2
        (hcpcs_classify_for_lookup exHcpcsCache ["j9999"]).2 :=
  ⟨List.Forall₂.cons (by decide) List.Forall₂.nil,
   (hcpcs_classify_case_invariant exHcpcsCache ["J9999"] ["j9999"]
     (List.Forall₂.cons (by decide) List.Forall₂.nil)).1,
   (hcpcs_classify_case_invariant exHcpcsCache ["J9999"] ["j9999"]
     (List.Forall₂.cons (by decide) List.Forall₂.nil)).2⟩

theorem updF_preserves_npi (row : NpiApiReferenceRow) (r : NpiApiResponsesRow) :
    (if r.npi = row.npi then storeRow row else r).npi = r.npi := by
  by_cases h : r.npi = row.npi
  · rw [if_pos h]; simp [storeRow, h]
  · rw [if_neg h]

theorem lookup_map_update (t : List NpiApiResponsesRow)
    (row : NpiApiReferenceRow) (k : String) :
    lookupNpi (t.map (fun r => if r.npi = row.npi then storeRow row else r)) k
      = (lookupNpi t k).map
          (fun r => if r.npi = row.npi then storeRow row else r) := by
  unfold lookupNpi
  rw [List.find?_map]
  have hpred : ((fun r : NpiApiResponsesRow => decide (r.npi = k)) ∘
      (fun r => if r.npi = row.npi then storeRow row else r))
      = fun r : NpiApiResponsesRow => decide (r.npi = k) := by
    funext r
    simp only [Function.comp]
    rw [updF_preserves_npi]
  rw [hpred]

theorem lookupNpi_append_single (t : List NpiApiResponsesRow)
    (s : NpiApiResponsesRow) (k : String) :
    lookupNpi (t ++ [s]) k
      = (lookupNpi t k).or (if s.npi = k then some s else none) := by
  unfold lookupNpi
  rw [List.find?_append]
  congr 1
  by_cases h : s.npi = k
  · simp [List.find?, h]
  · simp [List.find?, h]

theorem lookupNpi_some_npi {t : List NpiApiResponsesRow} {k : String}
    {r : NpiApiResponsesRow} (h : lookupNpi t k = some r) : r.npi = k := by
  unfold lookupNpi at h
  have hp := List.find?_some h
  simpa using hp

theorem upsertOne_of_none {t : List NpiApiResponsesRow}
    {row : NpiApiReferenceRow} (h : lookupNpi t row.npi = none) :
    upsertOne t row = t ++ [storeRow row] := by
  unfold upsertOne
  rw [h]

theorem upsertOne_of_some {t : List NpiApiResponsesRow}
    {row : NpiApiReferenceRow} {stored : NpiApiResponsesRow}
    (h : lookupNpi t row.npi = some stored) :
    upsertOne t row =
      if newerWins stored row then
        t.map (fun r => if r.npi = row.npi then storeRow row else r)
      else t := by
  unfold upsertOne
  rw [h]

theorem newerWins_storeRow (row : NpiApiReferenceRow) :
    newerWins (storeRow row) row = false := by
  simp [newerWins, storeRow]

/-- C7: the response-log upsert is latest-wins by `requested_at_utc`: an
absent key is inserted; a present key is overwritten exactly when the
incoming timestamp is strictly greater than the stored one or the stored
one is NULL, and is left unchanged otherwise; other keys are untouched;
and upserting the same row twice equals upserting it once. -/
theorem upsert_api_responses_latest_wins (t : List NpiApiResponsesRow)
    (row : NpiApiReferenceRow) :
    (lookupNpi t row.npi = none →
      upsert_api_responses t [row] = t ++ [storeRow row])
    ∧ (∀ stored, lookupNpi t row.npi = some stored →
      lookupNpi (upsert_api_responses t [row]) row.npi
        = some (if newerWins stored row then storeRow row else stored))
    ∧ (∀ k, k ≠ row.npi →
      lookupNpi (upsert_api_responses t [row]) k = lookupNpi t k)
    ∧ upsert_api_responses (upsert_api_responses t [row]) [row]
      = upsert_api_responses t [row] := by
  have hsingle : ∀ u : List NpiApiResponsesRow,
      upsert_api_responses u [row] = upsertOne u row := by
    intro u
    simp [upsert_api_responses]
  refine ⟨?_, ?_, ?_, ?_⟩
  · intro hnone
    rw [hsingle, upsertOne_of_none hnone]
  · intro stored hstored
    have hnpi : stored.npi = row.npi := lookupNpi_some_npi hstored
    rw [hsingle, upsertOne_of_some hstored]
    by_cases hw : newerWins stored row = true
    · rw [if_pos hw, if_pos hw, lookup_map_update, hstored]
      simp only [Option.map_some']
      rw [if_pos hnpi]
    · rw [if_neg hw, if_neg hw, hstored]
  · intro k hk
    rw [hsingle]
    cases hfind : lookupNpi t row.npi with
    | none =>
      rw [upsertOne_of_none hfind, lookupNpi_append_single]
      have hne : ¬ (storeRow row).npi = k := by
        simp only [storeRow]
        exact fun h => hk h.symm
      rw [if_neg hne, Option.or_none]
    | some stored =>
      rw [upsertOne_of_some hfind]
      by_cases hw : newerWins stored row = true
      · rw [if_pos hw, lookup_map_update]
        cases hfk : lookupNpi t k with
        | none => rfl
        | some r =>
          have hrk : r.npi = k := lookupNpi_some_npi hfk
          simp only [Option.map_some']
          rw [if_neg (by rw [hrk]; exact hk)]
      · rw [if_neg hw]
  · rw [hsingle, hsingle]
    cases hfind : lookupNpi t row.npi with
    | none =>
      have h1 : upsertOne t row = t ++ [storeRow row] := upsertOne_of_none hfind
      have h2 : lookupNpi (upsertOne t row) row.npi = some (storeRow row) := by
        rw [h1, lookupNpi_append_single, hfind]
        have hself : (storeRow row).npi = row.npi := rfl
        rw [if_pos hself]
        rfl
      rw [upsertOne_of_some h2, newerWins_storeRow]
      simp
    | some stored =>
      have hnpi : stored.npi = row.npi := lookupNpi_some_npi hfind
      by_cases hw : newerWins stored row = true
      · have h1 : upsertOne t row
            = t.map (fun r => if r.npi = row.npi then storeRow row else r) := by
          rw [upsertOne_of_some hfind, if_pos hw]
        have h2 : lookupNpi (upsertOne t row) row.npi
            = some (storeRow row) := by
          rw [h1, lookup_map_update, hfind]
          simp only [Option.map_some']
          rw [if_pos hnpi]
        rw [upsertOne_of_some h2, newerWins_storeRow]
        simp
      · have h1 : upsertOne t row = t := by
          rw [upsertOne_of_some hfind, if_neg hw]
        rw [h1, upsertOne_of_some hfind, if_neg hw]

/-- C7 witness: the concrete response-log table and a newer incoming
row. -/
theorem upsert_api_responses_latest_wins_witness :
    (lookupNpi exResponses (exIncoming "200").npi = none →
      upsert_api_responses exResponses [exIncoming "200"]
        = exResponses ++ [storeRow (exIncoming "200")])
    ∧ (∀ stored, lookupNpi exResponses (exIncoming "200").npi = some stored →
      lookupNpi (upsert_api_responses exResponses [exIncoming "200"])
          (exIncoming "200").npi
        = some (if newerWins stored (exIncoming "200")
            then storeRow (exIncoming "200") else stored))
    ∧ (∀ k, k ≠ (exIncoming "200").npi →
      lookupNpi (upsert_api_responses exResponses [exIncoming "200"]) k
        = lookupNpi exResponses k)
    ∧ upsert_api_responses
        (upsert_api_responses exResponses [exIncoming "200"])
        [exIncoming "200"]
      = upsert_api_responses exResponses [exIncoming "200"] :=
  upsert_api_responses_latest_wins exResponses (exIncoming "200")

theorem exportLe_proj {a b : HcpcsCacheRow} (h : exportLe a b) :
    a.hcpcs_code < b.hcpcs_code
    ∨ (a.hcpcs_code = b.hcpcs_code ∧ exportNocRank a ≤ exportNocRank b) := by
  unfold exportLe exportKey at h
  rw [Prod.Lex.le_iff] at h
  rcases h with h | ⟨heq, h2⟩
  · exact Or.inl h
  · refine Or.inr ⟨heq, ?_⟩
    rw [Prod.Lex.le_iff] at h2
    rcases h2 with h2 | ⟨heq2, _⟩
    · exact le_of_lt h2
    · exact le_of_eq heq2

/-- C10: the exported HCPCS mapping holds exactly the cache rows with
status `ok` (rows with `not_found` or `error` never appear), ordered by
`hcpcs_code` with, for equal codes, the non-NOC bucket before the NOC
bucket. -/
theorem export_mapping_ok_only_sorted (t : List HcpcsCacheRow) :
    (export_mapping_rows t).Perm
        (t.filter (fun r => decide (r.status = "ok")))
    ∧ (∀ r ∈ export_mapping_rows t, r.status = "ok")
    ∧ (∀ r ∈ t, r.status = "ok" → r ∈ export_mapping_rows t)
    ∧ (∀ r ∈ t, ¬ r.status = "ok" → r ∉ export_mapping_rows t)
    ∧ List.Pairwise (fun a b => a.hcpcs_code < b.hcpcs_code
        ∨ (a.hcpcs_code = b.hcpcs_code ∧ exportNocRank a ≤ exportNocRank b))
        (export_mapping_rows t) := by
  have hperm : (export_mapping_rows t).Perm
      (t.filter (fun r => decide (r.status = "ok"))) :=
    List.perm_insertionSort exportLe _
  have hmem : ∀ r, r ∈ export_mapping_rows t ↔
      r ∈ t.filter (fun r => decide (r.status = "ok")) :=
    fun r => hperm.mem_iff
  refine ⟨hperm, ?_, ?_, ?_, ?_⟩
  · intro r hr
    have := (hmem r).mp hr
    rw [List.mem_filter] at this
    exact of_decide_eq_true this.2
  · intro r hr hok
    refine (hmem r).mpr ?_
    rw [List.mem_filter]
    exact ⟨hr, decide_eq_true hok⟩
  · intro r _ hnok hr
    have := (hmem r).mp hr
    rw [List.mem_filter] at this
    exact hnok (of_decide_eq_true this.2)
  · have hsorted : List.Sorted exportLe (export_mapping_rows t) :=
      List.sorted_insertionSort exportLe _
    exact hsorted.imp (fun h => exportLe_proj h)

/-- C10 witness: the concrete one-row cache. -/
theorem export_mapping_ok_only_sorted_witness :
    (export_mapping_rows exHcpcsCache).Perm
        (exHcpcsCache.filter (fun r => decide (r.status = "ok")))
    ∧ (∀ r ∈ export_mapping_rows exHcpcsCache, r.status = "ok")
    ∧ (∀ r ∈ exHcpcsCache, r.status = "ok" →
        r ∈ export_mapping_rows exHcpcsCache)
    ∧ (∀ r ∈ exHcpcsCache, ¬ r.status = "ok" →
        r ∉ export_mapping_rows exHcpcsCache)
    ∧ List.Pairwise (fun a b => a.hcpcs_code < b.hcpcs_code
        ∨ (a.hcpcs_code = b.hcpcs_code ∧ exportNocRank a ≤ exportNocRank b))
        (export_mapping_rows exHcpcsCache) :=
  export_mapping_ok_only_sorted exHcpcsCache

theorem foldlMin_spec {α K : Type} [LinearOrder K] (key : α → K) :
    ∀ (xs : List α) (b : α),
      (xs.foldl (fun best y => if key y < key best then y else best) b = b
        ∨ xs.foldl (fun best y => if key y < key best then y else best) b ∈ xs)
      ∧ key (xs.foldl (fun best y => if key y < key best then y else best) b)
          ≤ key b
      ∧ ∀ x ∈ xs,
          key (xs.foldl (fun best y => if key y < key best then y else best) b)
            ≤ key x := by
  intro xs
  induction xs with
  | nil =>
    intro b
    refine ⟨Or.inl rfl, le_refl _, ?_⟩
    intro x hx
    simp at hx
  | cons y ys ih =>
    intro b
    simp only [List.foldl_cons]
    rcases ih (if key y < key b then y else b) with ⟨hmem, hleb, hmin⟩
    have hb' : key (if key y < key b then y else b) ≤ key b := by
      by_cases hyb : key y < key b
      · rw [if_pos hyb]; exact le_of_lt hyb
      · rw [if_neg hyb]
    have hy' : key (if key y < key b then y else b) ≤ key y := by
      by_cases hyb : key y < key b
      · rw [if_pos hyb]
      · rw [if_neg hyb]; exact not_lt.mp hyb
    refine ⟨?_, le_trans hleb hb', ?_⟩
    · rcases hmem with hmem | hmem
      · rw [hmem]
        by_cases hyb : key y < key b
        · rw [if_pos hyb]; exact Or.inr (List.mem_cons_self y ys)
        · rw [if_neg hyb]; exact Or.inl rfl
      · exact Or.inr (List.mem_cons_of_mem y hmem)
    · intro x hx
      rcases List.mem_cons.mp hx with hx | hx
      · rw [hx]; exact le_trans hleb hy'
      · exact hmin x hx

theorem minBy_spec {α K : Type} [LinearOrder K] (key : α → K) (l : List α)
    (m : α) (h : minBy key l = some m) :
    m ∈ l ∧ ∀ x ∈ l, key m ≤ key x := by
  cases l with
  | nil => simp [minBy] at h
  | cons x xs =>
    simp only [minBy, Option.some.injEq] at h
    rcases foldlMin_spec key xs x with ⟨hmem, hleb, hmin⟩
    rw [h] at hmem hleb hmin
    constructor
    · rcases hmem with hmem | hmem
      · rw [hmem]; exact List.mem_cons_self x xs
      · exact List.mem_cons_of_mem x hmem
    · intro z hz
      rcases List.mem_cons.mp hz with hz | hz
      · rw [hz]; exact hleb
      · exact hmin z hz

theorem attach_of_matched_nil {hmap : List HcpcsMapRow} {srcCode : String}
    (claimMonth : Option Int)
    (h : hmap.filter
      (fun r => decide (r.hcpcs_code = srcCode) && decide (r.status = "ok"))
      = []) :
    attach_hcpcs_record hmap srcCode claimMonth = none := by
  unfold attach_hcpcs_record hcpcsCandidates
  rw [h]
  rfl

theorem attach_of_matched_ne_nil {hmap : List HcpcsMapRow} {srcCode : String}
    (claimMonth : Option Int)
    (h : hmap.filter
      (fun r => decide (r.hcpcs_code = srcCode) && decide (r.status = "ok"))
      ≠ []) :
    ∃ m ∈ hmap.filter
        (fun r => decide (r.hcpcs_code = srcCode) && decide (r.status = "ok")),
      attach_hcpcs_record hmap srcCode claimMonth = some m
      ∧ ∀ x ∈ hmap.filter
          (fun r => decide (r.hcpcs_code = srcCode) && decide (r.status = "ok")),
        enrichSortKey claimMonth (some m) ≤ enrichSortKey claimMonth (some x) := by
  set matched := hmap.filter
    (fun r => decide (r.hcpcs_code = srcCode) && decide (r.status = "ok"))
    with hmatched
  have hcands : hcpcsCandidates hmap srcCode = matched.map some := by
    unfold hcpcsCandidates
    rw [← hmatched, if_neg (by simpa [List.isEmpty_iff] using h)]
  rcases List.exists_cons_of_ne_nil h with ⟨x, xs, hx⟩
  have hnonempty : hcpcsCandidates hmap srcCode
      = some x :: xs.map some := by
    rw [hcands, hx]
    rfl
  have hminBy : ∃ sel, minBy (enrichSortKey claimMonth)
      (hcpcsCandidates hmap srcCode) = some sel := by
    rw [hnonempty]
    exact ⟨_, rfl⟩
  rcases hminBy with ⟨sel, hsel⟩
  rcases minBy_spec _ _ _ hsel with ⟨hselmem, hselmin⟩
  rw [hcands] at hselmem
  rcases List.mem_map.mp hselmem with ⟨m, hmmem, hmsel⟩
  refine ⟨m, hmmem, ?_, ?_⟩
  · unfold attach_hcpcs_record
    rw [hsel, ← hmsel]
  · intro z hz
    have hzc : some z ∈ hcpcsCandidates hmap srcCode := by
      rw [hcands]
      exact List.mem_map_of_mem some hz
    have hle := hselmin (some z) hzc
    rw [← hmsel] at hle
    exact hle

/-- C9 amended: the record `enrich_dataset` attaches to a spending row is
drawn only from the status-`ok` mapping rows of that row's code and is
minimal under the embedded `ORDER BY` key, whose rank-0 coverage interval
starts at `COALESCE(act_eff_date, add_date, DATE '1900-01-01')` — the
fixed 1900-01-01 sentinel, not an unbounded past — and ends at `term_date`
(NULL = unbounded future); ties prefer non-NOC, then the most recent
`act_eff_date`-else-`add_date`, then the most recent `add_date`, then the
longer `long_desc`. -/
theorem attach_hcpcs_record_minimal (hmap : List HcpcsMapRow)
    (srcCode : String) (claimMonth : Option Int) :
    (∀ r, attach_hcpcs_record hmap srcCode claimMonth = some r →
      r ∈ hmap ∧ r.status = "ok" ∧ r.hcpcs_code = srcCode)
    ∧ (∀ r ∈ hmap, r.hcpcs_code = srcCode → r.status = "ok" →
      enrichSortKey claimMonth (attach_hcpcs_record hmap srcCode claimMonth)
        ≤ enrichSortKey claimMonth (some r))
    ∧ (attach_hcpcs_record hmap srcCode claimMonth = none →
      ∀ r ∈ hmap, ¬(r.hcpcs_code = srcCode ∧ r.status = "ok")) := by
  set matched := hmap.filter
    (fun r => decide (r.hcpcs_code = srcCode) && decide (r.status = "ok"))
    with hmatched
  refine ⟨?_, ?_, ?_⟩
  · intro r hr
    by_cases hnil : matched = []
    · rw [attach_of_matched_nil claimMonth hnil] at hr
      exact absurd hr (by simp)
    · rcases attach_of_matched_ne_nil claimMonth hnil with ⟨m, hmmem, hm, _⟩
      rw [hm] at hr
      have hmr : m = r := Option.some.inj hr
      rw [← hmr]
      rw [← hmatched] at hmmem
      rw [List.mem_filter] at hmmem
      rcases hmmem with ⟨hmem, hpred⟩
      rw [Bool.and_eq_true] at hpred
      exact ⟨hmem, of_decide_eq_true hpred.2, of_decide_eq_true hpred.1⟩
  · intro r hrmem hrcode hrok
    have hpred : (decide (r.hcpcs_code = srcCode) && decide (r.status = "ok"))
        = true := by
      rw [Bool.and_eq_true]
      exact ⟨decide_eq_true hrcode, decide_eq_true hrok⟩
    have hrmatched : r ∈ matched := by
      rw [hmatched, List.mem_filter]
      exact ⟨hrmem, hpred⟩
    have hnil : matched ≠ [] := List.ne_nil_of_mem hrmatched
    rcases attach_of_matched_ne_nil claimMonth hnil with ⟨m, _, hm, hmin⟩
    rw [hm]
    exact hmin r hrmatched
  · intro hnone r hrmem hpredand
    rcases hpredand with ⟨hrcode, hrok⟩
    have hpred : (decide (r.hcpcs_code = srcCode) && decide (r.status = "ok"))
        = true := by
      rw [Bool.and_eq_true]
      exact ⟨decide_eq_true hrcode, decide_eq_true hrok⟩
    have hrmatched : r ∈ matched := by
      rw [hmatched, List.mem_filter]
      exact ⟨hrmem, hpred⟩
    have hnil : matched ≠ [] := List.ne_nil_of_mem hrmatched
    rcases attach_of_matched_ne_nil claimMonth hnil with ⟨m, _, hm, _⟩
    rw [hm] at hnone
    exact absurd hnone (by simp)

/-- C9 witness: a two-record map looked up for a modern claim month. -/
theorem attach_hcpcs_record_minimal_witness :
    (∀ r, attach_hcpcs_record [exMapRowModern] "99213" (some 41000) = some r →
      r ∈ [exMapRowModern] ∧ r.status = "ok" ∧ r.hcpcs_code = "99213")
    ∧ (exMapRowModern ∈ [exMapRowModern]
      ∧ exMapRowModern.hcpcs_code = "99213"
      ∧ exMapRowModern.status = "ok"
      ∧ enrichSortKey (some 41000)
          (attach_hcpcs_record [exMapRowModern] "99213" (some 41000))
        ≤ enrichSortKey (some 41000) (some exMapRowModern)) :=
  ⟨(attach_hcpcs_record_minimal [exMapRowModern] "99213" (some 41000)).1,
   by decide, by decide, by decide,
   (attach_hcpcs_record_minimal [exMapRowModern] "99213" (some 41000)).2.1
     exMapRowModern (by decide) (by decide) (by decide)⟩

/-- C9 counterexample: at the claim month 1899-06-01 (day −214 of the
encoding) the code attaches the NOC record effective 1899-01-01, yet the
all-NULL-dates non-NOC record strictly precedes it under the claim's
stated ordering (whose interval is unbounded in the past), so the attached
record is not the minimum of the claimed ordering. -/
theorem attach_hcpcs_record_counterexample :
    attach_hcpcs_record [exMapRowNullDates, exMapRowNoc1899] "X1234"
        (some (-214)) = some exMapRowNoc1899
    ∧ specSortKey (some (-214)) (some exMapRowNullDates)
        < specSortKey (some (-214)) (some exMapRowNoc1899) := by
  refine ⟨by decide, by decide⟩

/-- C5 witness: a three-code input with effective batch size 2. -/
theorem chunk_hcpcs_codes_le_witness :
    (["99213", "A0425"] ∈
      chunk_hcpcs_codes ["99213", "A0425", "J9999"]
        (effective_hcpcs_batch_size 2))
    ∧ (["99213", "A0425"] : List String).length
        ≤ effective_hcpcs_batch_size 2 :=
  ⟨by decide,
   chunk_hcpcs_codes_le 2 ["99213", "A0425", "J9999"]
     ["99213", "A0425"] (by decide)⟩

theorem filter_ne_perm {l : List String} {a : String} (hnd : l.Nodup)
    (ha : a ∈ l) :
    l.Perm (a :: l.filter (fun x => decide (x ≠ a))) := by
  induction l with
  | nil => simp at ha
  | cons x xs ih =>
    rcases List.nodup_cons.mp hnd with ⟨hx, hxs⟩
    rcases List.mem_cons.mp ha with rfl | ha'
    · have hstep : (a :: xs).filter (fun y => decide (y ≠ a))
          = xs.filter (fun y => decide (y ≠ a)) := by
        simp
      have hall : xs.filter (fun y => decide (y ≠ a)) = xs :=
        List.filter_eq_self.mpr
          (fun y hy => decide_eq_true (fun hya => hx (hya ▸ hy)))
      rw [hstep, hall]
    · have hax : ¬ x = a := fun h => hx (h ▸ ha')
      have hstep : (x :: xs).filter (fun y => decide (y ≠ a))
          = x :: xs.filter (fun y => decide (y ≠ a)) := by
        simp [hax]
      rw [hstep]
      exact ((ih hxs ha').cons x).trans (List.Perm.swap a x _)

theorem bulkStep_remaining (f : NppesBulkFile) (st : NpiExporterState)
    (raw : String) :
    (bulkStep f st raw).remaining
      = if trimWs raw = "" ∨ trimWs raw ∉ st.remaining then st.remaining
        else st.remaining.filter (fun x => decide (x ≠ trimWs raw)) := by
  unfold bulkStep
  by_cases h : trimWs raw = "" ∨ trimWs raw ∉ st.remaining
  · rw [if_pos h, if_pos h]
  · rw [if_neg h, if_neg h]

theorem apiStep_remaining (apiTable : List NpiApiResponsesRow)
    (st : NpiExporterState) (npi : String) :
    (apiStep apiTable st npi).remaining
      = if npi ∈ st.remaining
        then st.remaining.filter (fun x => decide (x ≠ npi))
        else st.remaining := by
  unfold apiStep
  by_cases h : npi ∈ st.remaining
  · rw [if_neg (not_not_intro h), if_pos h]
    cases lookupNpi apiTable npi <;> rfl
  · rw [if_pos h, if_neg h]

theorem bulkStep_rows_mono (f : NppesBulkFile) (st : NpiExporterState)
    (raw : String) : st.rows <+: (bulkStep f st raw).rows := by
  unfold bulkStep
  by_cases h : trimWs raw = "" ∨ trimWs raw ∉ st.remaining
  · rw [if_pos h]
  · rw [if_neg h]
    exact ⟨_, rfl⟩

theorem apiStep_rows_mono (apiTable : List NpiApiResponsesRow)
    (st : NpiExporterState) (npi : String) :
    st.rows <+: (apiStep apiTable st npi).rows := by
  unfold apiStep
  by_cases h : npi ∉ st.remaining
  · rw [if_pos h]
  · rw [if_neg h]
    cases lookupNpi apiTable npi
    · exact ⟨_, rfl⟩
    · exact ⟨_, rfl⟩

theorem foldl_bulk_rows_mono (f : NppesBulkFile) :
    ∀ (col : List String) (st : NpiExporterState),
      st.rows <+: (col.foldl (bulkStep f) st).rows := by
  intro col
  induction col with
  | nil => intro st; exact List.prefix_rfl
  | cons raw rest ih =>
    intro st
    exact (bulkStep_rows_mono f st raw).trans (ih _)

theorem foldl_files_rows_mono :
    ∀ (fs : List NppesBulkFile) (st : NpiExporterState),
      st.rows <+: (fs.foldl (fun st f => write_bulk_from_primary f st) st).rows := by
  intro fs
  induction fs with
  | nil => intro st; exact List.prefix_rfl
  | cons f rest ih =>
    intro st
    exact (foldl_bulk_rows_mono f f.npi_column st).trans (ih _)

theorem foldl_api_rows_mono (apiTable : List NpiApiResponsesRow) :
    ∀ (l : List String) (st : NpiExporterState),
      st.rows <+: (l.foldl (apiStep apiTable) st).rows := by
  intro l
  induction l with
  | nil => intro st; exact List.prefix_rfl
  | cons npi rest ih =>
    intro st
    exact (apiStep_rows_mono apiTable st npi).trans (ih _)

theorem exporterInv_emit (uniqueNpis : List String) (st : NpiExporterState)
    (npi : String) (row : NpiExportRow) (hrow : row.npi = npi)
    (hndRem : st.remaining.Nodup) (hmem : npi ∈ st.remaining)
    (h : exporterInv uniqueNpis st) :
    exporterInv uniqueNpis
      { remaining := st.remaining.filter (fun x => decide (x ≠ npi)),
        rows := st.rows ++ [row] } := by
  unfold exporterInv at h ⊢
  have hpermRem := filter_ne_perm hndRem hmem
  have h1 : (st.rows ++ [row]).map NpiExportRow.npi
        ++ st.remaining.filter (fun x => decide (x ≠ npi))
      = st.rows.map NpiExportRow.npi
        ++ (npi :: st.remaining.filter (fun x => decide (x ≠ npi))) := by
    simp [hrow]
  rw [h1]
  exact (List.Perm.append_left _ hpermRem.symm).trans h

theorem exporterInv_remaining_nodup {uniqueNpis : List String}
    {st : NpiExporterState} (hN : uniqueNpis.Nodup)
    (h : exporterInv uniqueNpis st) : st.remaining.Nodup :=
  ((h.nodup_iff).mpr hN).of_append_right

theorem exporterInv_bulkStep (uniqueNpis : List String)
    (hN : uniqueNpis.Nodup) (f : NppesBulkFile) (st : NpiExporterState)
    (raw : String) (h : exporterInv uniqueNpis st) :
    exporterInv uniqueNpis (bulkStep f st raw) := by
  unfold bulkStep
  by_cases hc : trimWs raw = "" ∨ trimWs raw ∉ st.remaining
  · rw [if_pos hc]; exact h
  · rw [if_neg hc]
    push_neg at hc
    exact exporterInv_emit uniqueNpis st (trimWs raw) _ rfl
      (exporterInv_remaining_nodup hN h) hc.2 h

theorem exporterInv_apiStep (uniqueNpis : List String)
    (hN : uniqueNpis.Nodup) (apiTable : List NpiApiResponsesRow)
    (st : NpiExporterState) (npi : String) (h : exporterInv uniqueNpis st) :
    exporterInv uniqueNpis (apiStep apiTable st npi) := by
  unfold apiStep
  by_cases hc : npi ∉ st.remaining
  · rw [if_pos hc]; exact h
  · rw [if_neg hc]
    rw [not_not] at hc
    cases lookupNpi apiTable npi with
    | some row =>
      exact exporterInv_emit uniqueNpis st npi _ rfl
        (exporterInv_remaining_nodup hN h) hc h
    | none =>
      exact exporterInv_emit uniqueNpis st npi _ rfl
        (exporterInv_remaining_nodup hN h) hc h

theorem exporterInv_bulk_fold (uniqueNpis : List String)
    (hN : uniqueNpis.Nodup) (f : NppesBulkFile) :
    ∀ (col : List String) (st : NpiExporterState),
      exporterInv uniqueNpis st →
      exporterInv uniqueNpis (col.foldl (bulkStep f) st) := by
  intro col
  induction col with
  | nil => intro st h; exact h
  | cons raw rest ih =>
    intro st h
    exact ih _ (exporterInv_bulkStep uniqueNpis hN f st raw h)

theorem exporterInv_files_fold (uniqueNpis : List String)
    (hN : uniqueNpis.Nodup) :
    ∀ (fs : List NppesBulkFile) (st : NpiExporterState),
      exporterInv uniqueNpis st →
      exporterInv uniqueNpis
        (fs.foldl (fun st f => write_bulk_from_primary f st) st) := by
  intro fs
  induction fs with
  | nil => intro st h; exact h
  | cons f rest ih =>
    intro st h
    exact ih _ (exporterInv_bulk_fold uniqueNpis hN f f.npi_column st h)

theorem exporterInv_api_fold (uniqueNpis : List String)
    (hN : uniqueNpis.Nodup) (apiTable : List NpiApiResponsesRow) :
    ∀ (l : List String) (st : NpiExporterState),
      exporterInv uniqueNpis st →
      exporterInv uniqueNpis (l.foldl (apiStep apiTable) st) := by
  intro l
  induction l with
  | nil => intro st h; exact h
  | cons npi rest ih =>
    intro st h
    exact ih _ (exporterInv_apiStep uniqueNpis hN apiTable st npi h)

theorem api_fold_remaining_nil (apiTable : List NpiApiResponsesRow) :
    ∀ (l : List String) (st : NpiExporterState), st.remaining.Nodup →
      st.remaining ⊆ l → (l.foldl (apiStep apiTable) st).remaining = [] := by
  intro l
  induction l with
  | nil =>
    intro st _ hsub
    exact List.eq_nil_iff_forall_not_mem.mpr
      (fun x hx => (List.not_mem_nil x) (hsub hx))
  | cons a rest ih =>
    intro st hnd hsub
    simp only [List.foldl_cons]
    refine ih _ ?_ ?_
    · rw [apiStep_remaining]
      by_cases hmem : a ∈ st.remaining
      · rw [if_pos hmem]; exact hnd.filter _
      · rw [if_neg hmem]; exact hnd
    · rw [apiStep_remaining]
      by_cases hmem : a ∈ st.remaining
      · rw [if_pos hmem]
        intro x hx
        rw [List.mem_filter] at hx
        have hxa : x ≠ a := of_decide_eq_true hx.2
        rcases List.mem_cons.mp (hsub hx.1) with hcase | hcase
        · exact absurd hcase hxa
        · exact hcase
      · rw [if_neg hmem]
        intro x hx
        rcases List.mem_cons.mp (hsub hx) with hcase | hcase
        · exact absurd (hcase ▸ hx) hmem
        · exact hcase

theorem lookupNpi_mem {t : List NpiApiResponsesRow} {k : String}
    {r : NpiApiResponsesRow} (h : lookupNpi t k = some r) : r ∈ t := by
  unfold lookupNpi at h
  exact List.mem_of_find?_eq_some h

theorem exportRowWF_bulkStep (bulkFiles : List NppesBulkFile)
    (apiTable : List NpiApiResponsesRow) (f : NppesBulkFile)
    (hf : f ∈ bulkFiles) (st : NpiExporterState) (raw : String)
    (hcol : raw ∈ f.npi_column)
    (h : ∀ r ∈ st.rows, exportRowWF bulkFiles apiTable r) :
    ∀ r ∈ (bulkStep f st raw).rows, exportRowWF bulkFiles apiTable r := by
  unfold bulkStep
  by_cases hc : trimWs raw = "" ∨ trimWs raw ∉ st.remaining
  · rw [if_pos hc]; exact h
  · rw [if_neg hc]
    intro r hr
    rcases List.mem_append.mp hr with hr | hr
    · exact h r hr
    · rcases List.mem_singleton.mp hr with rfl
      refine ⟨?_, ?_, ?_⟩
      · intro hs; simp [bulkRow] at hs
      · intro hs; simp [bulkRow] at hs
      · intro label hlabel
        simp only [bulkRow] at hlabel
        injection hlabel with hl
        exact ⟨f, hf, hl, List.mem_map_of_mem trimWs hcol⟩

theorem exportRowWF_apiStep (bulkFiles : List NppesBulkFile)
    (apiTable : List NpiApiResponsesRow) (st : NpiExporterState)
    (npi : String)
    (h : ∀ r ∈ st.rows, exportRowWF bulkFiles apiTable r) :
    ∀ r ∈ (apiStep apiTable st npi).rows, exportRowWF bulkFiles apiTable r := by
  unfold apiStep
  by_cases hc : npi ∉ st.remaining
  · rw [if_pos hc]; exact h
  · rw [if_neg hc]
    cases hl : lookupNpi apiTable npi with
    | some row =>
      intro r hr
      rcases List.mem_append.mp hr with hr | hr
      · exact h r hr
      · rcases List.mem_singleton.mp hr with rfl
        refine ⟨?_, ?_, ?_⟩
        · intro hs; simp [apiRow] at hs
        · intro _
          exact ⟨row, lookupNpi_mem hl, lookupNpi_some_npi hl⟩
        · intro label hs; simp [apiRow] at hs
    | none =>
      intro r hr
      rcases List.mem_append.mp hr with hr | hr
      · exact h r hr
      · rcases List.mem_singleton.mp hr with rfl
        refine ⟨?_, ?_, ?_⟩
        · intro _
          exact ⟨rfl, rfl, hl⟩
        · intro hs; simp [sentinelRow] at hs
        · intro label hs; simp [sentinelRow] at hs

theorem exportRowWF_bulk_fold (bulkFiles : List NppesBulkFile)
    (apiTable : List NpiApiResponsesRow) (f : NppesBulkFile)
    (hf : f ∈ bulkFiles) :
    ∀ (col : List String) (st : NpiExporterState),
      (∀ raw ∈ col, raw ∈ f.npi_column) →
      (∀ r ∈ st.rows, exportRowWF bulkFiles apiTable r) →
      ∀ r ∈ (col.foldl (bulkStep f) st).rows,
        exportRowWF bulkFiles apiTable r := by
  intro col
  induction col with
  | nil => intro st _ h; exact h
  | cons raw rest ih =>
    intro st hcol h
    simp only [List.foldl_cons]
    refine ih _ (fun x hx => hcol x (List.mem_cons_of_mem raw hx)) ?_
    exact exportRowWF_bulkStep bulkFiles apiTable f hf st raw
      (hcol raw (List.mem_cons_self raw rest)) h

theorem exportRowWF_files_fold (bulkFiles : List NppesBulkFile)
    (apiTable : List NpiApiResponsesRow) :
    ∀ (fs : List NppesBulkFile) (st : NpiExporterState),
      (∀ f ∈ fs, f ∈ bulkFiles) →
      (∀ r ∈ st.rows, exportRowWF bulkFiles apiTable r) →
      ∀ r ∈ (fs.foldl (fun st f => write_bulk_from_primary f st) st).rows,
        exportRowWF bulkFiles apiTable r := by
  intro fs
  induction fs with
  | nil => intro st _ h; exact h
  | cons f rest ih =>
    intro st hfs h
    simp only [List.foldl_cons]
    refine ih _ (fun g hg => hfs g (List.mem_cons_of_mem f hg)) ?_
    exact exportRowWF_bulk_fold bulkFiles apiTable f
      (hfs f (List.mem_cons_self f rest)) f.npi_column st (fun _ hx => hx) h

theorem exportRowWF_api_fold (bulkFiles : List NppesBulkFile)
    (apiTable : List NpiApiResponsesRow) :
    ∀ (l : List String) (st : NpiExporterState),
      (∀ r ∈ st.rows, exportRowWF bulkFiles apiTable r) →
      ∀ r ∈ (l.foldl (apiStep apiTable) st).rows,
        exportRowWF bulkFiles apiTable r := by
  intro l
  induction l with
  | nil => intro st h; exact h
  | cons npi rest ih =>
    intro st h
    simp only [List.foldl_cons]
    exact ih _ (exportRowWF_apiStep bulkFiles apiTable st npi h)

theorem build_rows_perm (uniqueNpis : List String)
    (bulkFiles : List NppesBulkFile) (apiTable : List NpiApiResponsesRow)
    (hN : uniqueNpis.Nodup) :
    ((build_npi_resolved_rows uniqueNpis bulkFiles apiTable).map
      NpiExportRow.npi).Perm uniqueNpis := by
  have heq : build_npi_resolved_rows uniqueNpis bulkFiles apiTable
      = (uniqueNpis.foldl (apiStep apiTable)
          (bulkFiles.foldl (fun st f => write_bulk_from_primary f st)
            ⟨uniqueNpis, []⟩)).rows := rfl
  rw [heq]
  have h0 : exporterInv uniqueNpis ⟨uniqueNpis, []⟩ := by
    unfold exporterInv
    simp
  have h1 := exporterInv_files_fold uniqueNpis hN bulkFiles _ h0
  have hndRem1 := exporterInv_remaining_nodup hN h1
  have hsub1 : (bulkFiles.foldl (fun st f => write_bulk_from_primary f st)
      (⟨uniqueNpis, []⟩ : NpiExporterState)).remaining ⊆ uniqueNpis := by
    intro x hx
    exact h1.mem_iff.mp (List.mem_append_right _ hx)
  have h2 := exporterInv_api_fold uniqueNpis hN apiTable uniqueNpis _ h1
  have hrem2 := api_fold_remaining_nil apiTable uniqueNpis _ hndRem1 hsub1
  unfold exporterInv at h2
  rw [hrem2, List.append_nil] at h2
  exact h2

theorem build_rows_wf (uniqueNpis : List String)
    (bulkFiles : List NppesBulkFile) (apiTable : List NpiApiResponsesRow) :
    ∀ r ∈ build_npi_resolved_rows uniqueNpis bulkFiles apiTable,
      exportRowWF bulkFiles apiTable r := by
  have heq : build_npi_resolved_rows uniqueNpis bulkFiles apiTable
      = (uniqueNpis.foldl (apiStep apiTable)
          (bulkFiles.foldl (fun st f => write_bulk_from_primary f st)
            ⟨uniqueNpis, []⟩)).rows := rfl
  rw [heq]
  refine exportRowWF_api_fold bulkFiles apiTable uniqueNpis _ ?_
  refine exportRowWF_files_fold bulkFiles apiTable bulkFiles _
    (fun f hf => hf) ?_
  intro r hr
  simp at hr

/-- C1: after an uninterrupted run, the provider resolved artifact has
exactly one row per unique input NPI (the row keys are a permutation of
the input set, with no duplicates); each row is emitted by exactly one
phase; sentinel rows carry `url = "missing_cache"` and
`error_message = "missing_cache"` and correspond to NPIs without a cached
response; api rows correspond to NPIs with a row in `npi_api_responses`;
bulk rows correspond to NPIs matched in an NPPES bulk file. -/
theorem npi_resolved_artifact_partition (uniqueNpis : List String)
    (bulkFiles : List NppesBulkFile) (apiTable : List NpiApiResponsesRow)
    (hN : uniqueNpis.Nodup) :
    ((build_npi_resolved_rows uniqueNpis bulkFiles apiTable).map
      NpiExportRow.npi).Perm uniqueNpis
    ∧ ((build_npi_resolved_rows uniqueNpis bulkFiles apiTable).map
      NpiExportRow.npi).Nodup
    ∧ (∀ r ∈ build_npi_resolved_rows uniqueNpis bulkFiles apiTable,
      exportRowWF bulkFiles apiTable r) := by
  have hperm := build_rows_perm uniqueNpis bulkFiles apiTable hN
  exact ⟨hperm, hperm.nodup_iff.mpr hN,
    build_rows_wf uniqueNpis bulkFiles apiTable⟩

/-- C1 witness: three input NPIs, one matched by the weekly bulk file, one
with a cached response, one settled by the sentinel phase. -/
theorem npi_resolved_artifact_partition_witness :
    exUniqueNpis.Nodup
    ∧ (((build_npi_resolved_rows exUniqueNpis [exWeekly] exResponses).map
        NpiExportRow.npi).Perm exUniqueNpis
      ∧ ((build_npi_resolved_rows exUniqueNpis [exWeekly] exResponses).map
        NpiExportRow.npi).Nodup
      ∧ (∀ r ∈ build_npi_resolved_rows exUniqueNpis [exWeekly] exResponses,
        exportRowWF [exWeekly] exResponses r)) :=
  ⟨by decide,
   npi_resolved_artifact_partition exUniqueNpis [exWeekly] exResponses
     (by decide)⟩

theorem nodup_keys_eq {l : List NpiExportRow}
    (hnd : (l.map NpiExportRow.npi).Nodup) {a b : NpiExportRow}
    (ha : a ∈ l) (hb : b ∈ l) (hab : a.npi = b.npi) : a = b := by
  induction l with
  | nil => simp at ha
  | cons x xs ih =>
    simp only [List.map_cons, List.nodup_cons] at hnd
    rcases hnd with ⟨hx, hxs⟩
    rcases List.mem_cons.mp ha with rfl | ha'
    · rcases List.mem_cons.mp hb with rfl | hb'
      · rfl
      · exfalso
        have : b.npi ∈ xs.map NpiExportRow.npi :=
          List.mem_map_of_mem NpiExportRow.npi hb'
        rw [← hab] at this
        exact hx this
    · rcases List.mem_cons.mp hb with rfl | hb'
      · exfalso
        have : a.npi ∈ xs.map NpiExportRow.npi :=
          List.mem_map_of_mem NpiExportRow.npi ha'
        rw [hab] at this
        exact hx this
      · exact ih hxs ha' hb'

theorem bulk_fold_emits (f : NppesBulkFile) :
    ∀ (col : List String) (st : NpiExporterState) (npi : String),
      npi ≠ "" → npi ∈ col.map trimWs → npi ∈ st.remaining →
      ∃ r ∈ (col.foldl (bulkStep f) st).rows,
        r.npi = npi ∧ r.source = .bulk f.label := by
  intro col
  induction col with
  | nil =>
    intro st npi _ hmem _
    simp at hmem
  | cons raw rest ih =>
    intro st npi hne hmem hrem
    simp only [List.foldl_cons]
    by_cases hraw : trimWs raw = npi
    · have hcond : ¬ (trimWs raw = "" ∨ trimWs raw ∉ st.remaining) := by
        rw [hraw]
        push_neg
        exact ⟨hne, hrem⟩
      have hrows : (bulkStep f st raw).rows = st.rows ++
          [bulkRow f (trimWs raw)] := by
        unfold bulkStep
        rw [if_neg hcond]
      have hnewmem : bulkRow f (trimWs raw) ∈ (bulkStep f st raw).rows := by
        rw [hrows]
        exact List.mem_append_right _ (List.mem_singleton_self _)
      refine ⟨bulkRow f (trimWs raw),
        (foldl_bulk_rows_mono f rest (bulkStep f st raw)).subset hnewmem,
        hraw, rfl⟩
    · have hmem' : npi ∈ rest.map trimWs := by
        simp only [List.map_cons, List.mem_cons] at hmem
        rcases hmem with h1 | h1
        · exact absurd h1.symm hraw
        · exact h1
      have hrem' : npi ∈ (bulkStep f st raw).remaining := by
        rw [bulkStep_remaining]
        by_cases hc : trimWs raw = "" ∨ trimWs raw ∉ st.remaining
        · rw [if_pos hc]; exact hrem
        · rw [if_neg hc]
          rw [List.mem_filter]
          exact ⟨hrem, decide_eq_true (fun h => hraw h.symm)⟩
      exact ih _ npi hne hmem' hrem'

/-- C6 amended: within one run the weekly NPPES file is processed before
the monthly file, and because each emitted NPI is removed from the
`remaining` set, an NPI matched by the weekly file is written from the
weekly file; the monthly pass skips it, so for an NPI appearing in both
files the record in the artifact is the weekly one (not the monthly). -/
theorem weekly_record_wins (uniqueNpis : List String)
    (weekly monthly : NppesBulkFile) (apiTable : List NpiApiResponsesRow)
    (npi : String) (hN : uniqueNpis.Nodup) (hne : npi ≠ "")
    (hu : npi ∈ uniqueNpis)
    (hw : npi ∈ weekly.npi_column.map trimWs) :
    (∃ r ∈ build_npi_resolved_rows_weekly_monthly uniqueNpis (some weekly)
        (some monthly) apiTable, r.npi = npi ∧ r.source = .bulk weekly.label)
    ∧ (∀ r ∈ build_npi_resolved_rows_weekly_monthly uniqueNpis (some weekly)
        (some monthly) apiTable, r.npi = npi →
        r.source = .bulk weekly.label) := by
  have heq : build_npi_resolved_rows_weekly_monthly uniqueNpis (some weekly)
      (some monthly) apiTable
      = (uniqueNpis.foldl (apiStep apiTable)
          (write_bulk_from_primary monthly
            (write_bulk_from_primary weekly ⟨uniqueNpis, []⟩))).rows := rfl
  rcases bulk_fold_emits weekly weekly.npi_column ⟨uniqueNpis, []⟩ npi hne hw
    hu with ⟨r, hrmem, hrnpi, hrsource⟩
  have hrfinal : r ∈ build_npi_resolved_rows_weekly_monthly uniqueNpis
      (some weekly) (some monthly) apiTable := by
    rw [heq]
    refine (List.IsPrefix.trans ?_
      (foldl_api_rows_mono apiTable uniqueNpis _)).subset hrmem
    exact foldl_bulk_rows_mono monthly monthly.npi_column _
  have hnd : ((build_npi_resolved_rows_weekly_monthly uniqueNpis
      (some weekly) (some monthly) apiTable).map NpiExportRow.npi).Nodup :=
    (build_rows_perm uniqueNpis _ apiTable hN).nodup_iff.mpr hN
  refine ⟨⟨r, hrfinal, hrnpi, hrsource⟩, ?_⟩
  intro r' hr' hr'npi
  have : r' = r := nodup_keys_eq hnd hr' hrfinal (by rw [hr'npi, hrnpi])
  rw [this, hrsource]

/-- C6 counterexample: an NPI present in both the weekly and the monthly
bulk file is written from the weekly file (its row's url names the weekly
bundle), not from the monthly file as the claim states. -/
theorem weekly_record_wins_counterexample :
    (build_npi_resolved_rows_weekly_monthly ["1234567893"] (some exWeekly)
        (some exMonthly) []).map (fun r => (r.npi, r.url, r.source))
      = [("1234567893", some "nppes_bulk:weekly:npidata_pfile_w.csv",
          NpiRowSource.bulk "weekly")]
    ∧ NpiRowSource.bulk "weekly" ≠ NpiRowSource.bulk "monthly" := by
  refine ⟨by decide, by decide⟩

/-- C6 witness: the concrete weekly and monthly files sharing one NPI. -/
theorem weekly_record_wins_witness :
    (["1234567893"] : List String).Nodup
    ∧ ("1234567893" : String) ≠ ""
    ∧ "1234567893" ∈ (["1234567893"] : List String)
    ∧ "1234567893" ∈ exWeekly.npi_column.map trimWs
    ∧ ((∃ r ∈ build_npi_resolved_rows_weekly_monthly ["1234567893"]
        (some exWeekly) (some exMonthly) [],
        r.npi = "1234567893" ∧ r.source = .bulk exWeekly.label)
      ∧ (∀ r ∈ build_npi_resolved_rows_weekly_monthly ["1234567893"]
        (some exWeekly) (some exMonthly) [], r.npi = "1234567893" →
        r.source = .bulk exWeekly.label)) :=
  ⟨by decide, by decide, by decide, by decide,
   weekly_record_wins ["1234567893"] exWeekly exMonthly [] "1234567893"
     (by decide) (by decide) (by decide) (by decide)⟩

end MedicaidSpending
